import Mathlib

/-!
Verification of the multi-strategy backtesting engine of the repository
(`taiwan_stock_analyzer.py`, with a near-identical Bollinger copy in
`batch_backtest.py`).

The engine's numeric work is shallowly embedded over exact rationals `ℚ`
(the Python source computes with IEEE floats; the embedding is the exact-
arithmetic reading of the same formulas).  The only non-rational quantity
in the source is the rolling standard deviation used by the Bollinger
bands (`STD = sqrt(variance)`); the engine only ever *compares* a close
price against `MA ± 2·STD`, and each such comparison is embedded as the
exact decidable rational predicate obtained by squaring, together with
bridge lemmas proving the predicate equivalent to the real-number
comparison against `MA ± 2·√variance`.
-/

-- The Batteries rational-number operations are `@[irreducible]`, which
-- blocks `decide`-style evaluation of the embedded engine on concrete
-- inputs; restore the ordinary reducibility of their (perfectly
-- well-founded) definitions.
set_option allowUnsafeReducibility true in
attribute [semireducible] Rat.add Rat.mul Rat.inv Rat.sub Rat.div Rat.neg

-- Evaluating a whole backtest on a concrete multi-week series inside
-- `decide` recurses deeply through the rational arithmetic.
set_option maxRecDepth 4000000

namespace Stock

/-- One input price bar: a row of the OHLCV dataframe handed to the
backtests (columns `Date, Open, High, Low, Close, Volume`).  Dates are
embedded as integers (the engine only copies them into events and
snapshots and takes the last one). -/
structure Row where
  date : ℤ
  openPx : ℚ
  high : ℚ
  low : ℚ
  close : ℚ
  volume : ℚ
deriving Repr, DecidableEq, Inhabited

/-- Arithmetic mean of a list, `pandas rolling(w).mean()` applied to one
window (`sum/len`; only used on nonempty windows). -/
def listMean (xs : List ℚ) : ℚ := xs.sum / (xs.length : ℚ)

/-- Sample variance (`ddof = 1`, divisor `len - 1`), the square of
`pandas rolling(w).std()` on one window. -/
def sampleVar (xs : List ℚ) : ℚ :=
  ((xs.map (fun x => (x - listMean xs) ^ 2)).sum) / ((xs.length : ℚ) - 1)

/-- Maximum of a window, `pandas rolling(w).max()` (only used nonempty). -/
def listMax : List ℚ → ℚ
  | [] => 0
  | x :: xs => xs.foldl max x

/-- The trailing window of width `w` ending at index `i` (inclusive). -/
def windowAt (xs : List ℚ) (w i : ℕ) : List ℚ :=
  (xs.take (i + 1)).drop (i + 1 - w)

/-- A rolling statistic at index `i`: defined (`some`) exactly when the
window is full, i.e. `i ≥ w - 1`, mirroring the `NaN` prefix produced by
`pandas rolling(window=w)`. -/
def rollingAt (f : List ℚ → ℚ) (w : ℕ) (xs : List ℚ) (i : ℕ) : Option ℚ :=
  if w ≤ i + 1 then some (f (windowAt xs w i)) else none

/-- `shift(1)` at index `i`: the previous value, `NaN` at index 0. -/
def shiftAt (xs : List ℚ) (i : ℕ) : Option ℚ :=
  if i = 0 then none else some (xs.getD (i - 1) 0)

/-! ### Exact comparisons against the Bollinger bands

The source stores `Lower_Band = MA - 2·STD` and `Upper_Band = MA + 2·STD`
with `STD = √var` and compares closes against them.  Over `ℚ` we carry
`MA` and `var` and decide each comparison exactly by squaring. -/

/-- Decides `c > m - 2·√v` (strictly above the lower band), for `v ≥ 0`. -/
def gtLowerB (c m v : ℚ) : Bool :=
  decide (m - c < 0) || decide ((m - c) ^ 2 < 4 * v)

/-- Decides `c ≤ m - 2·√v` (at or below the lower band), for `v ≥ 0`. -/
def leLowerB (c m v : ℚ) : Bool := !gtLowerB c m v

/-- Decides `c ≥ m + 2·√v` (at or above the upper band), for `v ≥ 0`. -/
def geUpperB (c m v : ℚ) : Bool :=
  decide (0 ≤ c - m) && decide (4 * v ≤ (c - m) ^ 2)

/-- The real-valued lower Bollinger band `MA - 2·√var` of the source. -/
noncomputable def lowerBandR (m v : ℚ) : ℝ := (m : ℝ) - 2 * Real.sqrt (v : ℝ)

/-- The real-valued upper Bollinger band `MA + 2·√var` of the source. -/
noncomputable def upperBandR (m v : ℚ) : ℝ := (m : ℝ) + 2 * Real.sqrt (v : ℝ)

theorem gtLowerB_iff (c m v : ℚ) (hv : 0 ≤ v) :
    gtLowerB c m v = true ↔ lowerBandR m v < (c : ℝ) := by
  unfold gtLowerB lowerBandR
  rw [Bool.or_eq_true, decide_eq_true_iff, decide_eq_true_iff]
  have hsq : Real.sqrt (v : ℝ) ^ 2 = (v : ℝ) := Real.sq_sqrt (by exact_mod_cast hv)
  have hsnn : (0 : ℝ) ≤ Real.sqrt (v : ℝ) := Real.sqrt_nonneg _
  constructor
  · rintro (h | h)
    · have h' : ((m : ℝ) - c) < 0 := by exact_mod_cast h
      nlinarith
    · have h' : ((m : ℝ) - c) ^ 2 < 4 * (v : ℝ) := by exact_mod_cast h
      nlinarith
  · intro h
    by_cases hmc : (m - c : ℚ) < 0
    · exact Or.inl hmc
    · push_neg at hmc
      right
      have hmc' : (0 : ℝ) ≤ (m : ℝ) - c := by exact_mod_cast hmc
      have h4 : ((m : ℝ) - c) ^ 2 < 4 * (v : ℝ) := by nlinarith
      exact_mod_cast h4

theorem leLowerB_iff (c m v : ℚ) (hv : 0 ≤ v) :
    leLowerB c m v = true ↔ (c : ℝ) ≤ lowerBandR m v := by
  unfold leLowerB
  rw [Bool.not_eq_true', ← not_iff_not, Bool.not_eq_false, gtLowerB_iff c m v hv, not_le]

theorem geUpperB_iff (c m v : ℚ) (hv : 0 ≤ v) :
    geUpperB c m v = true ↔ upperBandR m v ≤ (c : ℝ) := by
  unfold geUpperB upperBandR
  rw [Bool.and_eq_true, decide_eq_true_iff, decide_eq_true_iff]
  have hsq : Real.sqrt (v : ℝ) ^ 2 = (v : ℝ) := Real.sq_sqrt (by exact_mod_cast hv)
  have hsnn : (0 : ℝ) ≤ Real.sqrt (v : ℝ) := Real.sqrt_nonneg _
  constructor
  · rintro ⟨h1, h2⟩
    have h1' : (0 : ℝ) ≤ (c : ℝ) - m := by exact_mod_cast h1
    have h2' : 4 * (v : ℝ) ≤ ((c : ℝ) - m) ^ 2 := by exact_mod_cast h2
    nlinarith
  · intro h
    have h1' : (0 : ℝ) ≤ (c : ℝ) - m := by nlinarith
    have h2' : 4 * (v : ℝ) ≤ ((c : ℝ) - m) ^ 2 := by nlinarith
    exact ⟨by exact_mod_cast h1', by exact_mod_cast h2'⟩

/-- Rolling sample variance is nonnegative (sum of squares over `w - 1 ≥ 0`). -/
theorem sampleVar_nonneg (xs : List ℚ) (hlen : 1 ≤ xs.length) : 0 ≤ sampleVar xs := by
  unfold sampleVar
  apply div_nonneg
  · apply List.sum_nonneg
    intro x hx
    obtain ⟨y, _, rfl⟩ := List.mem_map.mp hx
    positivity
  · have : (1 : ℚ) ≤ (xs.length : ℚ) := by exact_mod_cast hlen
    linarith

/-! ### Trade events, snapshots, results

The source appends dictionaries to `trades` and `portfolio_values`; we keep
the fields the claims talk about (`Date`, `Action`, `Price`, `Shares`,
`Capital` resp. `Date`, `Portfolio_Value`, `Stock_Price`).  The free-text
`Signal`, `CPR_Level` and percentage `Return` fields are presentation-only
and omitted; each close event's realized P&L is recovered from the ledger
itself (see `pnlSum`). -/

/-- The `Action` strings of the source's trade dictionaries. -/
inductive Action where
  | buy          -- 'BUY'
  | sell         -- 'SELL'
  | sellFinal    -- 'SELL (Final)'
  | sellShort    -- 'SELL_SHORT'
  | cover        -- 'COVER'
  | coverFinal   -- 'COVER (Final)'
deriving Repr, DecidableEq, Inhabited

/-- One entry of the source's `trades` list. -/
structure Trade where
  date : ℤ
  action : Action
  price : ℚ
  shares : ℤ
  capital : ℚ
deriving Repr, DecidableEq, Inhabited

/-- One entry of the source's `portfolio_values` list. -/
structure Snap where
  date : ℤ
  value : ℚ
  price : ℚ
deriving Repr, DecidableEq, Inhabited

/-- The dictionary a backtest returns (`total_return` is the derived
display ratio `(final - initial)/initial·100` and `df_with_indicators`
the working frame; neither carries independent information, so the
embedded result keeps `final_capital`, `trades`, `portfolio_values`). -/
structure BResult where
  finalCapital : ℚ
  trades : List Trade
  pvs : List Snap
deriving Repr, DecidableEq, Inhabited

/-- Is the event one that opens a position? -/
def Action.isOpen : Action → Bool
  | .buy | .sellShort => true
  | _ => false

/-- Is the event one that closes a position (including forced closes)? -/
def Action.isClose : Action → Bool
  | .sell | .sellFinal | .cover | .coverFinal => true
  | _ => false

def openCount (ts : List Trade) : ℕ := (ts.filter (fun t => t.action.isOpen)).length

def closeCount (ts : List Trade) : ℕ := (ts.filter (fun t => t.action.isClose)).length

/-- Fold state for walking a ledger: accumulated realized P&L of the close
events seen so far, and the entry price of the most recent open event.
A close event for `q` shares at price `p` against entry `e` realizes
`q·(p - e)` for a long and `q·(e - p)` for a short — exactly the P&L
implied by the source's recorded `Return` percentage. -/
def pnlStep (p : ℚ × ℚ) (t : Trade) : ℚ × ℚ :=
  match t.action with
  | .buy => (p.1, t.price)
  | .sellShort => (p.1, t.price)
  | .sell => (p.1 + (t.shares : ℚ) * (t.price - p.2), p.2)
  | .sellFinal => (p.1 + (t.shares : ℚ) * (t.price - p.2), p.2)
  | .cover => (p.1 + (t.shares : ℚ) * (p.2 - t.price), p.2)
  | .coverFinal => (p.1 + (t.shares : ℚ) * (p.2 - t.price), p.2)

def pnlState (ts : List Trade) : ℚ × ℚ := ts.foldl pnlStep (0, 0)

/-- Sum of the realized P&L of all close events of a ledger. -/
def pnlSum (ts : List Trade) : ℚ := (pnlState ts).1

/-- Entry price of the most recent open event of a ledger. -/
def lastEntry (ts : List Trade) : ℚ := (pnlState ts).2

theorem pnlState_append_one (ts : List Trade) (t : Trade) :
    pnlState (ts ++ [t]) = pnlStep (pnlState ts) t := by
  unfold pnlState
  rw [List.foldl_append]
  rfl

theorem pnlSum_append_open (ts : List Trade) (t : Trade)
    (h : t.action = .buy ∨ t.action = .sellShort) :
    pnlSum (ts ++ [t]) = pnlSum ts ∧ lastEntry (ts ++ [t]) = t.price := by
  unfold pnlSum lastEntry
  rw [pnlState_append_one]
  rcases h with h | h <;> simp [pnlStep, h]

theorem pnlSum_append_sell (ts : List Trade) (t : Trade)
    (h : t.action = .sell ∨ t.action = .sellFinal) :
    pnlSum (ts ++ [t]) = pnlSum ts + (t.shares : ℚ) * (t.price - lastEntry ts) ∧
      lastEntry (ts ++ [t]) = lastEntry ts := by
  unfold pnlSum lastEntry
  rw [pnlState_append_one]
  rcases h with h | h <;> simp [pnlStep, h]

theorem pnlSum_append_cover (ts : List Trade) (t : Trade)
    (h : t.action = .cover ∨ t.action = .coverFinal) :
    pnlSum (ts ++ [t]) = pnlSum ts + (t.shares : ℚ) * (lastEntry ts - t.price) ∧
      lastEntry (ts ++ [t]) = lastEntry ts := by
  unfold pnlSum lastEntry
  rw [pnlState_append_one]
  rcases h with h | h <;> simp [pnlStep, h]

theorem openCount_append_one (ts : List Trade) (t : Trade) :
    openCount (ts ++ [t]) = openCount ts + (if t.action.isOpen then 1 else 0) := by
  unfold openCount
  rw [List.filter_append, List.length_append]
  by_cases h : t.action.isOpen <;> simp [h]

theorem closeCount_append_one (ts : List Trade) (t : Trade) :
    closeCount (ts ++ [t]) = closeCount ts + (if t.action.isClose then 1 else 0) := by
  unfold closeCount
  rw [List.filter_append, List.length_append]
  by_cases h : t.action.isClose <;> simp [h]

/-- `foldl` preserves an invariant that every list element's step preserves. -/
theorem foldl_invariant {α σ : Type _} (step : σ → α → σ) (P : σ → Prop)
    (l : List α) (s : σ) (h0 : P s)
    (hstep : ∀ a ∈ l, ∀ s', P s' → P (step s' a)) :
    P (l.foldl step s) := by
  induction l generalizing s with
  | nil => exact h0
  | cons x xs ih =>
    exact ih (step s x) (hstep x (List.mem_cons_self x xs) s h0)
      (fun a ha s' hs' => hstep a (List.mem_cons_of_mem x ha) s' hs')

/-! ### `calculate_bollinger_bands` and `bollinger_strategy_backtest`

Embedded from `taiwan_stock_analyzer.py` (the copy in `batch_backtest.py`
is textually identical except that it omits the `portfolio_values` list).
`calculate_bollinger_bands`'s own `len(df) < window` early return is
unreachable from the backtest (which requires 50 bars first) and is not
modelled. -/

/-- A bar augmented by `calculate_bollinger_bands(df, window=20, num_std=2)`:
`MA = rolling(20).mean`, and the rolling sample variance whose square root
is the stored `STD`.  The stored `Upper_Band`/`Lower_Band` columns are
`MA ± 2·STD`, recovered here through `lowerBandR`/`upperBandR` and the
decidable comparisons `gtLowerB`/`leLowerB`/`geUpperB`.  `Option.none`
models the `NaN` prefix. -/
structure BFrame where
  row : Row
  ma : Option ℚ
  var : Option ℚ
deriving Repr, DecidableEq, Inhabited

/-- A fully-defined (post-`dropna`) Bollinger frame. -/
structure BCFrame where
  row : Row
  ma : ℚ
  var : ℚ
deriving Repr, DecidableEq, Inhabited

def bollFrameAt (rows : List Row) (i : ℕ) : BFrame :=
  let closes := rows.map (·.close)
  { row := rows.getD i default
    ma := rollingAt listMean 20 closes i
    var := rollingAt sampleVar 20 closes i }

def bollFrames (rows : List Row) : List BFrame :=
  (List.range rows.length).map (bollFrameAt rows)

/-- Keeps a frame iff no column is `NaN` — one row of `df.dropna()`. -/
def bollComplete (f : BFrame) : Option BCFrame :=
  match f.ma, f.var with
  | some m, some v => some ⟨f.row, m, v⟩
  | _, _ => none

/-- `df.dropna().copy()` after `calculate_bollinger_bands`. -/
def bollDropna (rows : List Row) : List BCFrame :=
  (bollFrames rows).filterMap bollComplete

/-- Loop state of the Bollinger backtest: `position`, `capital`, `shares`
and the two accumulating lists. -/
structure BState where
  pos : ℤ
  capital : ℚ
  shares : ℤ
  trades : List Trade
  pvs : List Snap
deriving Repr, DecidableEq, Inhabited

/-- The trading half of one Bollinger loop iteration at
`(df.iloc[i-1], df.iloc[i])`: buy when flat, the previous close was at or
below the *previous* bar's lower band, and the current close is strictly
above that same previous bar's lower band (share count `capital // price`,
skipped at zero); sell when long and the close is at or above the
*current* bar's upper band. -/
def bollTrade (s : BState) (prev cur : BCFrame) : BState :=
  let price := cur.row.close
  if s.pos == 0 && leLowerB prev.row.close prev.ma prev.var
      && gtLowerB price prev.ma prev.var then
    let q : ℤ := ⌊s.capital / price⌋
    if 0 < q then
      { s with
        pos := 1
        capital := s.capital - (q : ℚ) * price
        shares := q
        trades := s.trades ++ [⟨cur.row.date, .buy, price, q, s.capital - (q : ℚ) * price⟩] }
    else s
  else if s.pos == 1 && geUpperB price cur.ma cur.var then
    { s with
      pos := 0
      capital := s.capital + (s.shares : ℚ) * price
      shares := 0
      trades := s.trades ++ [⟨cur.row.date, .sell, price, s.shares,
        s.capital + (s.shares : ℚ) * price⟩] }
  else s

/-- One full Bollinger loop iteration: the trade logic, then the
unconditional mark-to-market snapshot of the (possibly updated) state. -/
def bollStep (s : BState) (pc : BCFrame × BCFrame) : BState :=
  let price := pc.2.row.close
  let s1 := bollTrade s pc.1 pc.2
  let value := if s1.pos == 1 then s1.capital + (s1.shares : ℚ) * price else s1.capital
  { s1 with pvs := s1.pvs ++ [⟨pc.2.row.date, value, price⟩] }

def bollInit (cap0 : ℚ) : BState := ⟨0, cap0, 0, [], []⟩

/-- `for i in range(1, len(df))`: fold the body over consecutive pairs. -/
def bollLoop (fs : List BCFrame) (cap0 : ℚ) : BState :=
  (fs.zip fs.tail).foldl bollStep (bollInit cap0)

/-- `bollinger_strategy_backtest(df, initial_capital)`: `None` when the
series has fewer than 50 bars or fewer than 10 rows survive `dropna`;
otherwise run the loop and, if still holding, sell at the last bar's
close dated at the last bar. -/
def bollinger_strategy_backtest (rows : List Row) (cap0 : ℚ) : Option BResult :=
  if rows.length < 50 then none
  else
    let fs := bollDropna rows
    if fs.length < 10 then none
    else
      let s := bollLoop fs cap0
      if s.pos == 1 then
        let lastF := fs.getLastD default
        let p := lastF.row.close
        let cap := s.capital + (s.shares : ℚ) * p
        some ⟨cap, s.trades ++ [⟨lastF.row.date, .sellFinal, p, s.shares, cap⟩], s.pvs⟩
      else some ⟨s.capital, s.trades, s.pvs⟩

/-! ### Characterizing `dropna` -/

/-- `range' s (n+1)` as `range' s n` with `s+n` appended. -/
theorem range'_concat (s n : ℕ) : List.range' s (n + 1) = List.range' s n ++ [s + n] := by
  induction n generalizing s with
  | zero => simp [List.range']
  | succ m ih =>
    rw [List.range'_succ, ih (s + 1), List.range'_succ]
    have e : s + 1 + m = s + (m + 1) := by omega
    rw [e, List.cons_append]

/-- `filterMap` over `range n` of an index function that is defined exactly
from index `d` on collapses to a `map` over `range' d (n - d)`. -/
theorem filterMap_range_eq_map_range' {β : Type _} (g : ℕ → Option β) (h : ℕ → β)
    (d : ℕ) (hg : ∀ i, g i = if d ≤ i then some (h i) else none) (n : ℕ) :
    (List.range n).filterMap g = (List.range' d (n - d)).map h := by
  induction n with
  | zero => simp
  | succ m ih =>
    rw [List.range_succ, List.filterMap_append, ih]
    by_cases hd : d ≤ m
    · have hnm : m + 1 - d = (m - d) + 1 := by omega
      rw [hnm, range'_concat, List.map_append]
      have hdm : d + (m - d) = m := by omega
      simp [List.filterMap_cons, hg m, hd, hdm]
    · have h1 : m + 1 - d = 0 := by omega
      have h2 : m - d = 0 := by omega
      rw [h1, h2]
      simp [List.filterMap_cons, hg m, hd]

/-- The fully-defined Bollinger frame at an index `i ≥ 19`. -/
def bollCFrameAt (rows : List Row) (i : ℕ) : BCFrame :=
  let closes := rows.map (·.close)
  ⟨rows.getD i default, listMean (windowAt closes 20 i), sampleVar (windowAt closes 20 i)⟩

theorem bollComplete_frameAt (rows : List Row) (i : ℕ) :
    bollComplete (bollFrameAt rows i) =
      if 19 ≤ i then some (bollCFrameAt rows i) else none := by
  unfold bollComplete bollFrameAt bollCFrameAt rollingAt
  by_cases h : 20 ≤ i + 1
  · have h' : 19 ≤ i := by omega
    simp [h, h']
  · have h' : ¬ 19 ≤ i := by omega
    simp [h, h']

/-- `dropna` keeps exactly the suffix of indicator-complete rows: indices
`19, 20, …, n-1` of the original frame. -/
theorem bollDropna_eq (rows : List Row) :
    bollDropna rows = (List.range' 19 (rows.length - 19)).map (bollCFrameAt rows) := by
  unfold bollDropna bollFrames
  rw [List.filterMap_map]
  exact filterMap_range_eq_map_range' _ (bollCFrameAt rows) 19
    (fun i => bollComplete_frameAt rows i) rows.length

theorem bollDropna_length (rows : List Row) :
    (bollDropna rows).length = rows.length - 19 := by
  rw [bollDropna_eq, List.length_map, List.length_range']

theorem getLastD_concat' {α : Type _} (l : List α) (a d : α) :
    (l ++ [a]).getLastD d = a := by
  induction l generalizing d with
  | nil => rfl
  | cons x xs ih => rw [List.cons_append, List.getLastD_cons]; exact ih x

/-- The last row surviving `dropna` is the last row of the input series. -/
theorem bollDropna_getLast (rows : List Row) (h : 20 ≤ rows.length) :
    (bollDropna rows).getLastD default = bollCFrameAt rows (rows.length - 1) := by
  rw [bollDropna_eq]
  obtain ⟨m, hm⟩ : ∃ m, rows.length - 19 = m + 1 := ⟨rows.length - 20, by omega⟩
  rw [hm, range'_concat, List.map_append]
  have : 19 + m = rows.length - 1 := by omega
  rw [this]
  exact getLastD_concat' _ _ _

/-! ### The Bollinger loop invariant -/

/-- Invariant of the Bollinger loop: the position flag is 0 or 1; when
flat, cash equals the initial capital plus the realized P&L of the closes
recorded so far and the ledger has as many closes as opens; when long,
the outstanding shares (a positive count, bought at the ledger's most
recent open price) are exactly the gap between cash and that sum, and the
ledger has one unmatched open. -/
def BInv (cap0 : ℚ) (s : BState) : Prop :=
  (s.pos = 0 ∨ s.pos = 1) ∧
  (s.pos = 0 → s.shares = 0 ∧ s.capital = cap0 + pnlSum s.trades ∧
    openCount s.trades = closeCount s.trades) ∧
  (s.pos = 1 → 0 < s.shares ∧
    s.capital = cap0 + pnlSum s.trades - (s.shares : ℚ) * lastEntry s.trades ∧
    openCount s.trades = closeCount s.trades + 1)

theorem bollTrade_inv (cap0 : ℚ) (s : BState) (prev cur : BCFrame)
    (h : BInv cap0 s) : BInv cap0 (bollTrade s prev cur) := by
  obtain ⟨hp, h0, h1⟩ := h
  unfold bollTrade
  dsimp only
  split
  · next hsig =>
    rw [Bool.and_eq_true, Bool.and_eq_true] at hsig
    have hpos : s.pos = 0 := beq_iff_eq.mp hsig.1.1
    obtain ⟨hsh, hcap, hcnt⟩ := h0 hpos
    split
    · next hq =>
      set t : Trade := ⟨cur.row.date, .buy, cur.row.close, ⌊s.capital / cur.row.close⌋,
        s.capital - (⌊s.capital / cur.row.close⌋ : ℚ) * cur.row.close⟩ with ht
      obtain ⟨hps, hle⟩ := pnlSum_append_open s.trades t (Or.inl rfl)
      refine ⟨Or.inr rfl, fun hc => by simp at hc, fun _ => ⟨hq, ?_, ?_⟩⟩
      · show s.capital - (⌊s.capital / cur.row.close⌋ : ℚ) * cur.row.close =
          cap0 + pnlSum (s.trades ++ [t]) -
            (⌊s.capital / cur.row.close⌋ : ℚ) * lastEntry (s.trades ++ [t])
        rw [hps, hle, hcap]
      · show openCount (s.trades ++ [t]) = closeCount (s.trades ++ [t]) + 1
        rw [openCount_append_one, closeCount_append_one]
        simp [ht, Action.isOpen, Action.isClose, hcnt]
    · exact ⟨Or.inl hpos, h0, h1⟩
  · split
    · next hsig =>
      rw [Bool.and_eq_true] at hsig
      have hpos : s.pos = 1 := beq_iff_eq.mp hsig.1
      obtain ⟨hsh, hcap, hcnt⟩ := h1 hpos
      set t : Trade := ⟨cur.row.date, .sell, cur.row.close, s.shares,
        s.capital + (s.shares : ℚ) * cur.row.close⟩ with ht
      obtain ⟨hps, hle⟩ := pnlSum_append_sell s.trades t (Or.inl rfl)
      refine ⟨Or.inl rfl, fun _ => ⟨rfl, ?_, ?_⟩, fun hc => by simp at hc⟩
      · show s.capital + (s.shares : ℚ) * cur.row.close = cap0 + pnlSum (s.trades ++ [t])
        rw [hps, hcap]
        have hpr : t.price = cur.row.close := rfl
        have hshr : t.shares = s.shares := rfl
        rw [hpr, hshr]
        ring
      · show openCount (s.trades ++ [t]) = closeCount (s.trades ++ [t])
        rw [openCount_append_one, closeCount_append_one]
        simp [ht, Action.isOpen, Action.isClose, hcnt]
    · exact ⟨hp, h0, h1⟩

theorem bollStep_inv (cap0 : ℚ) (s : BState) (pc : BCFrame × BCFrame)
    (h : BInv cap0 s) : BInv cap0 (bollStep s pc) := by
  have h' := bollTrade_inv cap0 s pc.1 pc.2 h
  unfold bollStep
  dsimp only
  obtain ⟨hp, h0, h1⟩ := h'
  exact ⟨hp, h0, h1⟩

theorem bollInit_inv (cap0 : ℚ) : BInv cap0 (bollInit cap0) := by
  refine ⟨Or.inl rfl, fun _ => ⟨rfl, ?_, rfl⟩, fun hc => ?_⟩
  · show cap0 = cap0 + pnlSum []
    simp [pnlSum, pnlState]
  · exact absurd hc (by simp [bollInit])

theorem bollLoop_inv (fs : List BCFrame) (cap0 : ℚ) :
    BInv cap0 (bollLoop fs cap0) := by
  unfold bollLoop
  exact foldl_invariant bollStep (BInv cap0) _ _ (bollInit_inv cap0)
    (fun pc _ s' hs' => bollStep_inv cap0 s' pc hs')

/-- Every iteration of the Bollinger loop appends exactly one snapshot. -/
theorem bollStep_pvs (s : BState) (pc : BCFrame × BCFrame) :
    (bollStep s pc).pvs.length = s.pvs.length + 1 := by
  have htr : (bollTrade s pc.1 pc.2).pvs = s.pvs := by
    unfold bollTrade
    dsimp only
    split
    · split <;> rfl
    · split <;> rfl
  unfold bollStep
  dsimp only
  rw [List.length_append, htr]
  rfl

theorem bollLoop_pvs_aux (l : List (BCFrame × BCFrame)) :
    ∀ s : BState, (l.foldl bollStep s).pvs.length = s.pvs.length + l.length := by
  induction l with
  | nil => intro s; simp
  | cons x xs ih =>
    intro s
    rw [List.foldl_cons, ih (bollStep s x), bollStep_pvs]
    simp [List.length_cons]
    omega

/-- The loop produces one snapshot per consecutive pair of rows of the
`dropna`-ed frame, i.e. one per row except the first. -/
theorem bollLoop_pvs (fs : List BCFrame) (cap0 : ℚ) :
    (bollLoop fs cap0).pvs.length = fs.length - 1 := by
  unfold bollLoop
  rw [bollLoop_pvs_aux]
  have : (bollInit cap0).pvs.length = 0 := rfl
  rw [this, List.length_zip, List.length_tail]
  omega

/-- Capital conservation for the Bollinger backtest. -/
theorem boll_conservation (rows : List Row) (cap0 : ℚ) (r : BResult)
    (h : bollinger_strategy_backtest rows cap0 = some r) :
    r.finalCapital = cap0 + pnlSum r.trades := by
  unfold bollinger_strategy_backtest at h
  split at h
  · exact absurd h (by simp)
  · dsimp only at h
    split at h
    · exact absurd h (by simp)
    · obtain ⟨hp, h0, h1⟩ := bollLoop_inv (bollDropna rows) cap0
      split at h
      · next hpos =>
        have hpos' := beq_iff_eq.mp hpos
        obtain ⟨hsh, hcap, _⟩ := h1 hpos'
        set L := bollLoop (bollDropna rows) cap0
        set p := ((bollDropna rows).getLastD default).row.close
        set t : Trade := ⟨((bollDropna rows).getLastD default).row.date, .sellFinal, p,
          L.shares, L.capital + (L.shares : ℚ) * p⟩ with ht
        obtain ⟨hps, _⟩ := pnlSum_append_sell L.trades t (Or.inr rfl)
        rw [← Option.some_inj.mp h]
        show L.capital + (L.shares : ℚ) * p = cap0 + pnlSum (L.trades ++ [t])
        rw [hps, hcap]
        have e1 : t.price = p := rfl
        have e2 : t.shares = L.shares := rfl
        rw [e1, e2]
        ring
      · next hpos =>
        have hflat : (bollLoop (bollDropna rows) cap0).pos = 0 := by
          rcases hp with h' | h'
          · exact h'
          · exact absurd (beq_iff_eq.mpr h') hpos
        obtain ⟨_, hcap, _⟩ := h0 hflat
        rw [← Option.some_inj.mp h]
        exact hcap

/-- The Bollinger backtest returns `None` exactly on series shorter than
50 bars (with at least 50 bars, `dropna` keeps `n - 19 ≥ 31 ≥ 10` rows,
so the second guard never fires). -/
theorem boll_none_iff (rows : List Row) (cap0 : ℚ) :
    bollinger_strategy_backtest rows cap0 = none ↔ rows.length < 50 := by
  unfold bollinger_strategy_backtest
  split
  · next h => simp [h]
  · next h =>
    dsimp only
    have hlen : (bollDropna rows).length = rows.length - 19 := bollDropna_length rows
    have h10 : ¬ (bollDropna rows).length < 10 := by omega
    rw [if_neg h10]
    split <;> simp [h]

/-! ### `calculate_breakout_indicators` and `breakout_strategy_backtest`

Embedded from `taiwan_stock_analyzer.py`.  The indicator function copies
the frame (`df = df.copy()`) before adding `MA20`, `MA60`, `MA10`,
`High20`, `Volume_MA5`; its `len(df) < 60` early return is unreachable
from the backtest.  The `Signal`/`Return` strings of the trade
dictionaries are omitted as before. -/

/-- A bar augmented by `calculate_breakout_indicators`. -/
structure KFrame where
  row : Row
  ma20 : Option ℚ
  ma60 : Option ℚ
  ma10 : Option ℚ
  high20 : Option ℚ
  vma5 : Option ℚ
deriving Repr, DecidableEq, Inhabited

/-- A fully-defined (post-`dropna`) breakout frame. -/
structure KCFrame where
  row : Row
  ma20 : ℚ
  ma60 : ℚ
  ma10 : ℚ
  high20 : ℚ
  vma5 : ℚ
deriving Repr, DecidableEq, Inhabited

def breakoutFrameAt (rows : List Row) (i : ℕ) : KFrame :=
  let closes := rows.map (·.close)
  let highs := rows.map (·.high)
  let vols := rows.map (·.volume)
  { row := rows.getD i default
    ma20 := rollingAt listMean 20 closes i
    ma60 := rollingAt listMean 60 closes i
    ma10 := rollingAt listMean 10 closes i
    high20 := rollingAt listMax 20 highs i
    vma5 := rollingAt listMean 5 vols i }

def breakoutFrames (rows : List Row) : List KFrame :=
  (List.range rows.length).map (breakoutFrameAt rows)

def breakoutComplete (f : KFrame) : Option KCFrame :=
  match f.ma20, f.ma60, f.ma10, f.high20, f.vma5 with
  | some a, some b, some c, some d, some e => some ⟨f.row, a, b, c, d, e⟩
  | _, _, _, _, _ => none

/-- `df.dropna().copy()` after `calculate_breakout_indicators`. -/
def breakoutDropna (rows : List Row) : List KCFrame :=
  (breakoutFrames rows).filterMap breakoutComplete

/-- The fully-defined breakout frame at an index `i ≥ 59`. -/
def kCFrameAt (rows : List Row) (i : ℕ) : KCFrame :=
  let closes := rows.map (·.close)
  let highs := rows.map (·.high)
  let vols := rows.map (·.volume)
  ⟨rows.getD i default,
    listMean (windowAt closes 20 i), listMean (windowAt closes 60 i),
    listMean (windowAt closes 10 i), listMax (windowAt highs 20 i),
    listMean (windowAt vols 5 i)⟩

theorem breakoutComplete_frameAt (rows : List Row) (i : ℕ) :
    breakoutComplete (breakoutFrameAt rows i) =
      if 59 ≤ i then some (kCFrameAt rows i) else none := by
  unfold breakoutComplete breakoutFrameAt kCFrameAt rollingAt
  by_cases h59 : 59 ≤ i
  · have c60 : 60 ≤ i + 1 := by omega
    have c20 : 20 ≤ i + 1 := by omega
    have c10 : 10 ≤ i + 1 := by omega
    have c5 : 5 ≤ i + 1 := by omega
    simp [h59, c60, c20, c10, c5]
  · have c60 : ¬ 60 ≤ i + 1 := by omega
    by_cases c20 : 20 ≤ i + 1 <;> by_cases c10 : 10 ≤ i + 1 <;>
      by_cases c5 : 5 ≤ i + 1 <;> simp [h59, c60, c20, c10, c5]

/-- `dropna` keeps exactly the indices `59, …, n-1`. -/
theorem breakoutDropna_eq (rows : List Row) :
    breakoutDropna rows =
      (List.range' 59 (rows.length - 59)).map (kCFrameAt rows) := by
  unfold breakoutDropna breakoutFrames
  rw [List.filterMap_map]
  exact filterMap_range_eq_map_range' _ (kCFrameAt rows) 59
    (fun i => breakoutComplete_frameAt rows i) rows.length

theorem breakoutDropna_length (rows : List Row) :
    (breakoutDropna rows).length = rows.length - 59 := by
  rw [breakoutDropna_eq, List.length_map, List.length_range']

theorem breakoutDropna_getLast (rows : List Row) (h : 60 ≤ rows.length) :
    (breakoutDropna rows).getLastD default = kCFrameAt rows (rows.length - 1) := by
  rw [breakoutDropna_eq]
  obtain ⟨m, hm⟩ : ∃ m, rows.length - 59 = m + 1 := ⟨rows.length - 60, by omega⟩
  rw [hm, range'_concat, List.map_append]
  have : 59 + m = rows.length - 1 := by omega
  rw [this]
  exact getLastD_concat' _ _ _

/-- Loop state shared by the Breakout and Intraday backtests (these two
also track `entry_price`; `pos` is `0`, `1`, or `-1`). -/
structure TState where
  pos : ℤ
  capital : ℚ
  shares : ℤ
  entry : ℚ
  trades : List Trade
  pvs : List Snap
deriving Repr, DecidableEq, Inhabited

/-- The breakout entry conditions on the current bar: trend filter
(`close > MA20 and close > MA60`), breakout above the *previous* bar's
20-bar rolling high (`close > prev.High20`), and the volume filter
(`volume > Volume_MA5`). -/
def breakoutEntrySig (prev cur : KCFrame) : Bool :=
  (decide (cur.row.close > cur.ma20) && decide (cur.row.close > cur.ma60))
    && decide (cur.row.close > prev.high20)
    && decide (cur.row.volume > cur.vma5)

/-- The breakout exit conditions, checked in source order (stop-loss at
`entry·(1 - slp/100)`, take-profit at `entry·(1 + tpp/100)`, trailing
exit below `MA10`); only the free-text signal depends on which fires
first, so the disjunction is behaviourally exact. -/
def breakoutExitSig (slp tpp : ℚ) (entry : ℚ) (cur : KCFrame) : Bool :=
  decide (cur.row.close ≤ entry * (1 - slp / 100))
    || decide (cur.row.close ≥ entry * (1 + tpp / 100))
    || decide (cur.row.close < cur.ma10)

/-- The trading half of one breakout loop iteration. -/
def breakoutTrade (slp tpp : ℚ) (s : TState) (prev cur : KCFrame) : TState :=
  let price := cur.row.close
  if s.pos == 0 && breakoutEntrySig prev cur then
    let q : ℤ := ⌊s.capital / price⌋
    if 0 < q then
      { s with
        pos := 1
        capital := s.capital - (q : ℚ) * price
        shares := q
        entry := price
        trades := s.trades ++ [⟨cur.row.date, .buy, price, q, s.capital - (q : ℚ) * price⟩] }
    else s
  else if s.pos == 1 && breakoutExitSig slp tpp s.entry cur then
    { s with
      pos := 0
      capital := s.capital + (s.shares : ℚ) * price
      shares := 0
      entry := 0
      trades := s.trades ++ [⟨cur.row.date, .sell, price, s.shares,
        s.capital + (s.shares : ℚ) * price⟩] }
  else s

/-- One full breakout loop iteration: trade logic, then snapshot. -/
def breakoutStep (slp tpp : ℚ) (s : TState) (pc : KCFrame × KCFrame) : TState :=
  let price := pc.2.row.close
  let s1 := breakoutTrade slp tpp s pc.1 pc.2
  let value := if s1.pos == 1 then s1.capital + (s1.shares : ℚ) * price else s1.capital
  { s1 with pvs := s1.pvs ++ [⟨pc.2.row.date, value, price⟩] }

def tInit (cap0 : ℚ) : TState := ⟨0, cap0, 0, 0, [], []⟩

def breakoutLoop (slp tpp : ℚ) (fs : List KCFrame) (cap0 : ℚ) : TState :=
  (fs.zip fs.tail).foldl (breakoutStep slp tpp) (tInit cap0)

/-- `breakout_strategy_backtest(df, initial_capital, stop_loss_pct,
take_profit_pct)` (defaults `100000, 6, 15`). -/
def breakout_strategy_backtest (rows : List Row) (cap0 slp tpp : ℚ) : Option BResult :=
  if rows.length < 60 then none
  else
    let fs := breakoutDropna rows
    if fs.length < 10 then none
    else
      let s := breakoutLoop slp tpp fs cap0
      if s.pos == 1 then
        let lastF := fs.getLastD default
        let p := lastF.row.close
        let cap := s.capital + (s.shares : ℚ) * p
        some ⟨cap, s.trades ++ [⟨lastF.row.date, .sellFinal, p, s.shares, cap⟩], s.pvs⟩
      else some ⟨s.capital, s.trades, s.pvs⟩

/-! ### The Breakout/Intraday loop invariant -/

/-- Invariant of the Breakout and Intraday loops (the analogue of `BInv`
with a short side): when in a position, `entry_price` equals the ledger's
most recent open price and the reserved value is `shares · entry`. -/
def TInv (cap0 : ℚ) (s : TState) : Prop :=
  (s.pos = 0 ∨ s.pos = 1 ∨ s.pos = -1) ∧
  (s.pos = 0 → s.shares = 0 ∧ s.capital = cap0 + pnlSum s.trades ∧
    openCount s.trades = closeCount s.trades) ∧
  (s.pos ≠ 0 → 0 < s.shares ∧ s.entry = lastEntry s.trades ∧
    s.capital = cap0 + pnlSum s.trades - (s.shares : ℚ) * lastEntry s.trades ∧
    openCount s.trades = closeCount s.trades + 1)

theorem tInit_inv (cap0 : ℚ) : TInv cap0 (tInit cap0) := by
  refine ⟨Or.inl rfl, fun _ => ⟨rfl, ?_, rfl⟩, fun hc => ?_⟩
  · show cap0 = cap0 + pnlSum []
    simp [pnlSum, pnlState]
  · exact absurd rfl hc

/-- Opening a long position (shared by Breakout entry and Intraday long
entry): appends a `BUY`, reserves `q·price`, preserves `TInv`. -/
theorem TInv_open_long (cap0 : ℚ) (s : TState) (d : ℤ) (price : ℚ) (q : ℤ)
    (hq : 0 < q) (hflat : s.pos = 0) (h : TInv cap0 s) :
    TInv cap0 { s with
      pos := 1
      capital := s.capital - (q : ℚ) * price
      shares := q
      entry := price
      trades := s.trades ++ [⟨d, .buy, price, q, s.capital - (q : ℚ) * price⟩] } := by
  obtain ⟨hp, h0, h1⟩ := h
  obtain ⟨hsh, hcap, hcnt⟩ := h0 hflat
  set t : Trade := ⟨d, .buy, price, q, s.capital - (q : ℚ) * price⟩ with ht
  obtain ⟨hps, hle⟩ := pnlSum_append_open s.trades t (Or.inl rfl)
  refine ⟨Or.inr (Or.inl rfl), fun hc => by simp at hc, fun _ => ⟨hq, ?_, ?_, ?_⟩⟩
  · show price = lastEntry (s.trades ++ [t])
    rw [hle]
  · show s.capital - (q : ℚ) * price =
      cap0 + pnlSum (s.trades ++ [t]) - (q : ℚ) * lastEntry (s.trades ++ [t])
    rw [hps, hle, hcap]
  · show openCount (s.trades ++ [t]) = closeCount (s.trades ++ [t]) + 1
    rw [openCount_append_one, closeCount_append_one]
    simp [ht, Action.isOpen, Action.isClose, hcnt]

/-- Opening a short position (Intraday): appends a `SELL_SHORT`, reserves
`q·price` exactly as a long would, preserves `TInv`. -/
theorem TInv_open_short (cap0 : ℚ) (s : TState) (d : ℤ) (price : ℚ) (q : ℤ)
    (hq : 0 < q) (hflat : s.pos = 0) (h : TInv cap0 s) :
    TInv cap0 { s with
      pos := -1
      capital := s.capital - (q : ℚ) * price
      shares := q
      entry := price
      trades := s.trades ++ [⟨d, .sellShort, price, q, s.capital - (q : ℚ) * price⟩] } := by
  obtain ⟨hp, h0, h1⟩ := h
  obtain ⟨hsh, hcap, hcnt⟩ := h0 hflat
  set t : Trade := ⟨d, .sellShort, price, q, s.capital - (q : ℚ) * price⟩ with ht
  obtain ⟨hps, hle⟩ := pnlSum_append_open s.trades t (Or.inr rfl)
  refine ⟨Or.inr (Or.inr rfl), fun hc => by simp at hc, fun _ => ⟨hq, ?_, ?_, ?_⟩⟩
  · show price = lastEntry (s.trades ++ [t])
    rw [hle]
  · show s.capital - (q : ℚ) * price =
      cap0 + pnlSum (s.trades ++ [t]) - (q : ℚ) * lastEntry (s.trades ++ [t])
    rw [hps, hle, hcap]
  · show openCount (s.trades ++ [t]) = closeCount (s.trades ++ [t]) + 1
    rw [openCount_append_one, closeCount_append_one]
    simp [ht, Action.isOpen, Action.isClose, hcnt]

/-- Closing a long (`SELL` or final `SELL`): adds back `shares·price`,
preserves `TInv`. -/
theorem TInv_close_long (cap0 : ℚ) (s : TState) (d : ℤ) (price : ℚ) (a : Action)
    (ha : a = .sell ∨ a = .sellFinal) (hlong : s.pos = 1) (h : TInv cap0 s) :
    TInv cap0 { s with
      pos := 0
      capital := s.capital + (s.shares : ℚ) * price
      shares := 0
      entry := 0
      trades := s.trades ++ [⟨d, a, price, s.shares,
        s.capital + (s.shares : ℚ) * price⟩] } := by
  obtain ⟨hp, h0, h1⟩ := h
  obtain ⟨hsh, hent, hcap, hcnt⟩ := h1 (by rw [hlong]; decide)
  set t : Trade := ⟨d, a, price, s.shares, s.capital + (s.shares : ℚ) * price⟩ with ht
  obtain ⟨hps, hle⟩ := pnlSum_append_sell s.trades t ha
  refine ⟨Or.inl rfl, fun _ => ⟨rfl, ?_, ?_⟩, fun hc => by simp at hc⟩
  · show s.capital + (s.shares : ℚ) * price = cap0 + pnlSum (s.trades ++ [t])
    rw [hps, hcap]
    have e1 : t.price = price := rfl
    have e2 : t.shares = s.shares := rfl
    rw [e1, e2]
    ring
  · show openCount (s.trades ++ [t]) = closeCount (s.trades ++ [t])
    rw [openCount_append_one, closeCount_append_one]
    rcases ha with ha | ha <;>
      simp [ht, ha, Action.isOpen, Action.isClose, hcnt]

/-- Closing a short (`COVER` or final `COVER`): adds back the reserved
`shares·entry` plus the spread `shares·(entry - price)`, preserves
`TInv`. -/
theorem TInv_close_short (cap0 : ℚ) (s : TState) (d : ℤ) (price : ℚ) (a : Action)
    (ha : a = .cover ∨ a = .coverFinal) (hshort : s.pos = -1) (h : TInv cap0 s) :
    TInv cap0 { s with
      pos := 0
      capital := s.capital + (s.shares : ℚ) * s.entry +
        (s.shares : ℚ) * (s.entry - price)
      shares := 0
      entry := 0
      trades := s.trades ++ [⟨d, a, price, s.shares,
        s.capital + (s.shares : ℚ) * s.entry + (s.shares : ℚ) * (s.entry - price)⟩] } := by
  obtain ⟨hp, h0, h1⟩ := h
  obtain ⟨hsh, hent, hcap, hcnt⟩ := h1 (by rw [hshort]; decide)
  set t : Trade := ⟨d, a, price, s.shares,
    s.capital + (s.shares : ℚ) * s.entry + (s.shares : ℚ) * (s.entry - price)⟩ with ht
  obtain ⟨hps, hle⟩ := pnlSum_append_cover s.trades t ha
  refine ⟨Or.inl rfl, fun _ => ⟨rfl, ?_, ?_⟩, fun hc => by simp at hc⟩
  · show s.capital + (s.shares : ℚ) * s.entry + (s.shares : ℚ) * (s.entry - price) =
      cap0 + pnlSum (s.trades ++ [t])
    rw [hps, hcap, hent]
    have e1 : t.price = price := rfl
    have e2 : t.shares = s.shares := rfl
    rw [e1, e2]
    ring
  · show openCount (s.trades ++ [t]) = closeCount (s.trades ++ [t])
    rw [openCount_append_one, closeCount_append_one]
    rcases ha with ha | ha <;>
      simp [ht, ha, Action.isOpen, Action.isClose, hcnt]

theorem breakoutTrade_inv (cap0 slp tpp : ℚ) (s : TState) (prev cur : KCFrame)
    (h : TInv cap0 s) : TInv cap0 (breakoutTrade slp tpp s prev cur) := by
  unfold breakoutTrade
  dsimp only
  split
  · next hsig =>
    rw [Bool.and_eq_true] at hsig
    have hpos : s.pos = 0 := beq_iff_eq.mp hsig.1
    split
    · next hq => exact TInv_open_long cap0 s cur.row.date cur.row.close _ hq hpos h
    · exact h
  · split
    · next hsig =>
      rw [Bool.and_eq_true] at hsig
      have hpos : s.pos = 1 := beq_iff_eq.mp hsig.1
      exact TInv_close_long cap0 s cur.row.date cur.row.close .sell (Or.inl rfl) hpos h
    · exact h

theorem breakoutStep_inv (cap0 slp tpp : ℚ) (s : TState) (pc : KCFrame × KCFrame)
    (h : TInv cap0 s) : TInv cap0 (breakoutStep slp tpp s pc) := by
  have h' := breakoutTrade_inv cap0 slp tpp s pc.1 pc.2 h
  unfold breakoutStep
  dsimp only
  obtain ⟨hp, h0, h1⟩ := h'
  exact ⟨hp, h0, h1⟩

theorem breakoutLoop_inv (slp tpp : ℚ) (fs : List KCFrame) (cap0 : ℚ) :
    TInv cap0 (breakoutLoop slp tpp fs cap0) := by
  unfold breakoutLoop
  exact foldl_invariant (breakoutStep slp tpp) (TInv cap0) _ _ (tInit_inv cap0)
    (fun pc _ s' hs' => breakoutStep_inv cap0 slp tpp s' pc hs')

/-- The breakout strategy has no short side: its position flag is 0 or 1. -/
theorem breakoutTrade_pos (slp tpp : ℚ) (s : TState) (prev cur : KCFrame)
    (h : s.pos = 0 ∨ s.pos = 1) :
    (breakoutTrade slp tpp s prev cur).pos = 0 ∨
      (breakoutTrade slp tpp s prev cur).pos = 1 := by
  unfold breakoutTrade
  dsimp only
  split
  · split
    · exact Or.inr rfl
    · exact h
  · split
    · exact Or.inl rfl
    · exact h

theorem breakoutLoop_pos (slp tpp : ℚ) (fs : List KCFrame) (cap0 : ℚ) :
    (breakoutLoop slp tpp fs cap0).pos = 0 ∨ (breakoutLoop slp tpp fs cap0).pos = 1 := by
  unfold breakoutLoop
  refine foldl_invariant (breakoutStep slp tpp)
    (fun s => s.pos = 0 ∨ s.pos = 1) _ _ (Or.inl rfl) ?_
  intro pc _ s' hs'
  have h' := breakoutTrade_pos slp tpp s' pc.1 pc.2 hs'
  unfold breakoutStep
  dsimp only
  exact h'

theorem breakoutStep_pvs (slp tpp : ℚ) (s : TState) (pc : KCFrame × KCFrame) :
    (breakoutStep slp tpp s pc).pvs.length = s.pvs.length + 1 := by
  have htr : (breakoutTrade slp tpp s pc.1 pc.2).pvs = s.pvs := by
    unfold breakoutTrade
    dsimp only
    split
    · split <;> rfl
    · split <;> rfl
  unfold breakoutStep
  dsimp only
  rw [List.length_append, htr]
  rfl

theorem breakoutLoop_pvs_aux (slp tpp : ℚ) (l : List (KCFrame × KCFrame)) :
    ∀ s : TState, ((l.foldl (breakoutStep slp tpp) s).pvs).length = s.pvs.length + l.length := by
  induction l with
  | nil => intro s; simp
  | cons x xs ih =>
    intro s
    rw [List.foldl_cons, ih (breakoutStep slp tpp s x), breakoutStep_pvs]
    simp [List.length_cons]
    omega

theorem breakoutLoop_pvs (slp tpp : ℚ) (fs : List KCFrame) (cap0 : ℚ) :
    (breakoutLoop slp tpp fs cap0).pvs.length = fs.length - 1 := by
  unfold breakoutLoop
  rw [breakoutLoop_pvs_aux]
  have h0 : (tInit cap0).pvs.length = 0 := rfl
  rw [h0, List.length_zip, List.length_tail]
  omega

/-- Capital conservation for the breakout backtest. -/
theorem breakout_conservation (rows : List Row) (cap0 slp tpp : ℚ) (r : BResult)
    (h : breakout_strategy_backtest rows cap0 slp tpp = some r) :
    r.finalCapital = cap0 + pnlSum r.trades := by
  unfold breakout_strategy_backtest at h
  split at h
  · exact absurd h (by simp)
  · dsimp only at h
    split at h
    · exact absurd h (by simp)
    · obtain ⟨hp, h0, h1⟩ := breakoutLoop_inv slp tpp (breakoutDropna rows) cap0
      split at h
      · next hpos =>
        have hpos' := beq_iff_eq.mp hpos
        obtain ⟨hsh, hent, hcap, _⟩ := h1 (by rw [hpos']; decide)
        set L := breakoutLoop slp tpp (breakoutDropna rows) cap0
        set p := ((breakoutDropna rows).getLastD default).row.close
        set t : Trade := ⟨((breakoutDropna rows).getLastD default).row.date, .sellFinal, p,
          L.shares, L.capital + (L.shares : ℚ) * p⟩ with ht
        obtain ⟨hps, _⟩ := pnlSum_append_sell L.trades t (Or.inr rfl)
        rw [← Option.some_inj.mp h]
        show L.capital + (L.shares : ℚ) * p = cap0 + pnlSum (L.trades ++ [t])
        rw [hps, hcap]
        have e1 : t.price = p := rfl
        have e2 : t.shares = L.shares := rfl
        rw [e1, e2]
        ring
      · next hpos =>
        have hflat : (breakoutLoop slp tpp (breakoutDropna rows) cap0).pos = 0 := by
          rcases breakoutLoop_pos slp tpp (breakoutDropna rows) cap0 with h' | h'
          · exact h'
          · exact absurd (beq_iff_eq.mpr h') hpos
        obtain ⟨_, hcap, _⟩ := h0 hflat
        rw [← Option.some_inj.mp h]
        exact hcap

/-- The breakout backtest returns `None` exactly on series shorter than
69 bars: the explicit guard rejects fewer than 60 bars, and `dropna`
(which removes the 59 `MA60`-incomplete rows) leaves fewer than 10 rows
for 60–68 bars. -/
theorem breakout_none_iff (rows : List Row) (cap0 slp tpp : ℚ) :
    breakout_strategy_backtest rows cap0 slp tpp = none ↔ rows.length < 69 := by
  unfold breakout_strategy_backtest
  split
  · next h => simp; omega
  · next h =>
    dsimp only
    have hlen : (breakoutDropna rows).length = rows.length - 59 := breakoutDropna_length rows
    by_cases h10 : (breakoutDropna rows).length < 10
    · simp [h10]; omega
    · rw [if_neg h10]
      split <;> simp <;> omega

/-! ### `calculate_intraday_indicators` and `intraday_strategy_backtest`

Embedded from `taiwan_stock_analyzer.py`.  The indicator function copies
the frame before adding columns; its `len(df) < 2` early return and the
missing-column check are unreachable from the backtest (which requires 20
well-formed bars), and the in-loop `pd.isna(PP)` skip can never fire
after `dropna`.  CPR and Camarilla levels are computed from the
*previous* bar's high/low/close (`shift(1)`), so every pivot column is
`NaN` exactly on the first row. -/

/-- A bar augmented by `calculate_intraday_indicators`. -/
structure IFrame where
  row : Row
  prevHigh : Option ℚ
  prevLow : Option ℚ
  prevClose : Option ℚ
  pp : Option ℚ
  bc : Option ℚ
  tc : Option ℚ
  h1 : Option ℚ
  h2 : Option ℚ
  h3 : Option ℚ
  h4 : Option ℚ
  l1 : Option ℚ
  l2 : Option ℚ
  l3 : Option ℚ
  l4 : Option ℚ
  vma10 : Option ℚ
deriving Repr, DecidableEq, Inhabited

/-- A fully-defined (post-`dropna`) intraday frame. -/
structure ICFrame where
  row : Row
  prevHigh : ℚ
  prevLow : ℚ
  prevClose : ℚ
  pp : ℚ
  bc : ℚ
  tc : ℚ
  h1 : ℚ
  h2 : ℚ
  h3 : ℚ
  h4 : ℚ
  l1 : ℚ
  l2 : ℚ
  l3 : ℚ
  l4 : ℚ
  vma10 : ℚ
deriving Repr, DecidableEq, Inhabited

/-- The pivot block from a previous bar's high/low/close: `PP=(H+L+C)/3`,
`BC=(H+L)/2`, `TC=2·PP-BC`, Camarilla `H1..H4 = C + (H-L)·1.1/{12,6,4,2}`
and `L1..L4 = C - (H-L)·1.1/{12,6,4,2}`. -/
def intradayFrameAt (rows : List Row) (i : ℕ) : IFrame :=
  let vols := rows.map (·.volume)
  if i = 0 then
    { row := rows.getD 0 default
      prevHigh := none, prevLow := none, prevClose := none
      pp := none, bc := none, tc := none
      h1 := none, h2 := none, h3 := none, h4 := none
      l1 := none, l2 := none, l3 := none, l4 := none
      vma10 := rollingAt listMean 10 vols 0 }
  else
    let prev := rows.getD (i - 1) default
    let pp := (prev.high + prev.low + prev.close) / 3
    let bc := (prev.high + prev.low) / 2
    let range := prev.high - prev.low
    { row := rows.getD i default
      prevHigh := some prev.high, prevLow := some prev.low, prevClose := some prev.close
      pp := some pp, bc := some bc, tc := some (pp * 2 - bc)
      h1 := some (prev.close + range * (11/10) / 12)
      h2 := some (prev.close + range * (11/10) / 6)
      h3 := some (prev.close + range * (11/10) / 4)
      h4 := some (prev.close + range * (11/10) / 2)
      l1 := some (prev.close - range * (11/10) / 12)
      l2 := some (prev.close - range * (11/10) / 6)
      l3 := some (prev.close - range * (11/10) / 4)
      l4 := some (prev.close - range * (11/10) / 2)
      vma10 := rollingAt listMean 10 vols i }

def intradayFrames (rows : List Row) : List IFrame :=
  (List.range rows.length).map (intradayFrameAt rows)

def intradayComplete (f : IFrame) : Option ICFrame :=
  match f.prevHigh, f.prevLow, f.prevClose, f.pp, f.bc, f.tc,
      f.h1, f.h2, f.h3, f.h4, f.l1, f.l2, f.l3, f.l4, f.vma10 with
  | some a1, some a2, some a3, some a4, some a5, some a6, some a7, some a8,
      some a9, some a10, some a11, some a12, some a13, some a14, some a15 =>
    some ⟨f.row, a1, a2, a3, a4, a5, a6, a7, a8, a9, a10, a11, a12, a13, a14, a15⟩
  | _, _, _, _, _, _, _, _, _, _, _, _, _, _, _ => none

/-- `df.dropna().copy()` after `calculate_intraday_indicators`. -/
def intradayDropna (rows : List Row) : List ICFrame :=
  (intradayFrames rows).filterMap intradayComplete

/-- The fully-defined intraday frame at an index `i ≥ 9`. -/
def iCFrameAt (rows : List Row) (i : ℕ) : ICFrame :=
  let vols := rows.map (·.volume)
  let prev := rows.getD (i - 1) default
  let pp := (prev.high + prev.low + prev.close) / 3
  let bc := (prev.high + prev.low) / 2
  let range := prev.high - prev.low
  { row := rows.getD i default
    prevHigh := prev.high, prevLow := prev.low, prevClose := prev.close
    pp := pp, bc := bc, tc := pp * 2 - bc
    h1 := prev.close + range * (11/10) / 12
    h2 := prev.close + range * (11/10) / 6
    h3 := prev.close + range * (11/10) / 4
    h4 := prev.close + range * (11/10) / 2
    l1 := prev.close - range * (11/10) / 12
    l2 := prev.close - range * (11/10) / 6
    l3 := prev.close - range * (11/10) / 4
    l4 := prev.close - range * (11/10) / 2
    vma10 := listMean (windowAt vols 10 i) }

theorem intradayComplete_frameAt (rows : List Row) (i : ℕ) :
    intradayComplete (intradayFrameAt rows i) =
      if 9 ≤ i then some (iCFrameAt rows i) else none := by
  unfold intradayComplete intradayFrameAt iCFrameAt rollingAt
  by_cases h0 : i = 0
  · subst h0
    simp
  · by_cases h9 : 9 ≤ i
    · have c10 : 10 ≤ i + 1 := by omega
      simp [h0, h9, c10]
    · have c10 : ¬ 10 ≤ i + 1 := by omega
      simp [h0, h9, c10]

theorem intradayDropna_eq (rows : List Row) :
    intradayDropna rows =
      (List.range' 9 (rows.length - 9)).map (iCFrameAt rows) := by
  unfold intradayDropna intradayFrames
  rw [List.filterMap_map]
  exact filterMap_range_eq_map_range' _ (iCFrameAt rows) 9
    (fun i => intradayComplete_frameAt rows i) rows.length

theorem intradayDropna_length (rows : List Row) :
    (intradayDropna rows).length = rows.length - 9 := by
  rw [intradayDropna_eq, List.length_map, List.length_range']

theorem intradayDropna_getLast (rows : List Row) (h : 10 ≤ rows.length) :
    (intradayDropna rows).getLastD default = iCFrameAt rows (rows.length - 1) := by
  rw [intradayDropna_eq]
  obtain ⟨m, hm⟩ : ∃ m, rows.length - 9 = m + 1 := ⟨rows.length - 10, by omega⟩
  rw [hm, range'_concat, List.map_append]
  have : 9 + m = rows.length - 1 := by omega
  rw [this]
  exact getLastD_concat' _ _ _

/-- Intraday long entry: break above the CPR band (`close > BC`), volume
above `Volume_MA10 · threshold`, and `high > H1`. -/
def intradayLongSig (vt : ℚ) (cur : ICFrame) : Bool :=
  decide (cur.row.close > cur.bc) && decide (cur.row.volume > cur.vma10 * vt)
    && decide (cur.row.high > cur.h1)

/-- Intraday short entry: break below the CPR band (`close < TC`), volume
above `Volume_MA10 · threshold`, and `low < L1`. -/
def intradayShortSig (vt : ℚ) (cur : ICFrame) : Bool :=
  decide (cur.row.close < cur.tc) && decide (cur.row.volume > cur.vma10 * vt)
    && decide (cur.row.low < cur.l1)

/-- Intraday long exit: take-profit at `high ≥ H3`, stop at `low ≤ L1`,
pivot-reversion stop at `close < PP` (source order; only the signal text
depends on which fires). -/
def intradayLongExit (cur : ICFrame) : Bool :=
  decide (cur.row.high ≥ cur.h3) || decide (cur.row.low ≤ cur.l1)
    || decide (cur.row.close < cur.pp)

/-- Intraday short exit: take-profit at `low ≤ L3`, stop at `high ≥ H1`,
pivot-reversion stop at `close > PP`. -/
def intradayShortExit (cur : ICFrame) : Bool :=
  decide (cur.row.low ≤ cur.l3) || decide (cur.row.high ≥ cur.h1)
    || decide (cur.row.close > cur.pp)

/-- The trading half of one intraday loop iteration.  A short is opened by
deducting `shares·price` from cash (reserving the proceeds) and closed by
adding back `shares·entry + shares·(entry - price)`. -/
def intradayTrade (vt : ℚ) (s : TState) (_prev cur : ICFrame) : TState :=
  let price := cur.row.close
  if s.pos == 0 then
    if intradayLongSig vt cur then
      let q : ℤ := ⌊s.capital / price⌋
      if 0 < q then
        { s with
          pos := 1
          capital := s.capital - (q : ℚ) * price
          shares := q
          entry := price
          trades := s.trades ++ [⟨cur.row.date, .buy, price, q, s.capital - (q : ℚ) * price⟩] }
      else s
    else if intradayShortSig vt cur then
      let q : ℤ := ⌊s.capital / price⌋
      if 0 < q then
        { s with
          pos := -1
          capital := s.capital - (q : ℚ) * price
          shares := q
          entry := price
          trades := s.trades ++ [⟨cur.row.date, .sellShort, price, q,
            s.capital - (q : ℚ) * price⟩] }
      else s
    else s
  else if s.pos == 1 then
    if intradayLongExit cur then
      { s with
        pos := 0
        capital := s.capital + (s.shares : ℚ) * price
        shares := 0
        entry := 0
        trades := s.trades ++ [⟨cur.row.date, .sell, price, s.shares,
          s.capital + (s.shares : ℚ) * price⟩] }
    else s
  else
    if intradayShortExit cur then
      { s with
        pos := 0
        capital := s.capital + (s.shares : ℚ) * s.entry + (s.shares : ℚ) * (s.entry - price)
        shares := 0
        entry := 0
        trades := s.trades ++ [⟨cur.row.date, .cover, price, s.shares,
          s.capital + (s.shares : ℚ) * s.entry + (s.shares : ℚ) * (s.entry - price)⟩] }
    else s

/-- Mark-to-market value of the intraday state at a price: `cash` when
flat, `cash + shares·price` when long, and
`cash + shares·entry + shares·(entry - price)` when short. -/
def intradayValue (s : TState) (price : ℚ) : ℚ :=
  if s.pos == 1 then s.capital + (s.shares : ℚ) * price
  else if s.pos == -1 then
    s.capital + (s.shares : ℚ) * s.entry + (s.shares : ℚ) * (s.entry - price)
  else s.capital

/-- One full intraday loop iteration: trade logic, then snapshot. -/
def intradayStep (vt : ℚ) (s : TState) (pc : ICFrame × ICFrame) : TState :=
  let price := pc.2.row.close
  let s1 := intradayTrade vt s pc.1 pc.2
  { s1 with pvs := s1.pvs ++ [⟨pc.2.row.date, intradayValue s1 price, price⟩] }

def intradayLoop (vt : ℚ) (fs : List ICFrame) (cap0 : ℚ) : TState :=
  (fs.zip fs.tail).foldl (intradayStep vt) (tInit cap0)

/-- `intraday_strategy_backtest(df, initial_capital, volume_threshold)`
(defaults `100000, 1.2`). -/
def intraday_strategy_backtest (rows : List Row) (cap0 vt : ℚ) : Option BResult :=
  if rows.length < 20 then none
  else
    let fs := intradayDropna rows
    if fs.length < 10 then none
    else
      let s := intradayLoop vt fs cap0
      if s.pos == 1 then
        let lastF := fs.getLastD default
        let p := lastF.row.close
        let cap := s.capital + (s.shares : ℚ) * p
        some ⟨cap, s.trades ++ [⟨lastF.row.date, .sellFinal, p, s.shares, cap⟩], s.pvs⟩
      else if s.pos == -1 then
        let lastF := fs.getLastD default
        let p := lastF.row.close
        let cap := s.capital + (s.shares : ℚ) * s.entry + (s.shares : ℚ) * (s.entry - p)
        some ⟨cap, s.trades ++ [⟨lastF.row.date, .coverFinal, p, s.shares, cap⟩], s.pvs⟩
      else some ⟨s.capital, s.trades, s.pvs⟩

theorem intradayTrade_inv (cap0 vt : ℚ) (s : TState) (prev cur : ICFrame)
    (h : TInv cap0 s) : TInv cap0 (intradayTrade vt s prev cur) := by
  unfold intradayTrade
  dsimp only
  split
  · next hflat =>
    have hpos : s.pos = 0 := beq_iff_eq.mp hflat
    split
    · split
      · next hq => exact TInv_open_long cap0 s cur.row.date cur.row.close _ hq hpos h
      · exact h
    · split
      · split
        · next hq => exact TInv_open_short cap0 s cur.row.date cur.row.close _ hq hpos h
        · exact h
      · exact h
  · next hnflat =>
    split
    · next hlong =>
      have hpos : s.pos = 1 := beq_iff_eq.mp hlong
      split
      · exact TInv_close_long cap0 s cur.row.date cur.row.close .sell (Or.inl rfl) hpos h
      · exact h
    · next hnlong =>
      have hpos : s.pos = -1 := by
        rcases h.1 with h' | h' | h'
        · exact absurd (beq_iff_eq.mpr h') hnflat
        · exact absurd (beq_iff_eq.mpr h') hnlong
        · exact h'
      split
      · exact TInv_close_short cap0 s cur.row.date cur.row.close .cover (Or.inl rfl) hpos h
      · exact h

theorem intradayStep_inv (cap0 vt : ℚ) (s : TState) (pc : ICFrame × ICFrame)
    (h : TInv cap0 s) : TInv cap0 (intradayStep vt s pc) := by
  have h' := intradayTrade_inv cap0 vt s pc.1 pc.2 h
  unfold intradayStep
  dsimp only
  obtain ⟨hp, h0, h1⟩ := h'
  exact ⟨hp, h0, h1⟩

theorem intradayLoop_inv (vt : ℚ) (fs : List ICFrame) (cap0 : ℚ) :
    TInv cap0 (intradayLoop vt fs cap0) := by
  unfold intradayLoop
  exact foldl_invariant (intradayStep vt) (TInv cap0) _ _ (tInit_inv cap0)
    (fun pc _ s' hs' => intradayStep_inv cap0 vt s' pc hs')

theorem intradayTrade_pvs (vt : ℚ) (s : TState) (prev cur : ICFrame) :
    (intradayTrade vt s prev cur).pvs = s.pvs := by
  unfold intradayTrade
  dsimp only
  split
  · split
    · split <;> rfl
    · split
      · split <;> rfl
      · rfl
  · split
    · split <;> rfl
    · split <;> rfl

theorem intradayStep_pvs (vt : ℚ) (s : TState) (pc : ICFrame × ICFrame) :
    (intradayStep vt s pc).pvs.length = s.pvs.length + 1 := by
  unfold intradayStep
  dsimp only
  rw [List.length_append, intradayTrade_pvs]
  rfl

theorem intradayLoop_pvs_aux (vt : ℚ) (l : List (ICFrame × ICFrame)) :
    ∀ s : TState, ((l.foldl (intradayStep vt) s).pvs).length = s.pvs.length + l.length := by
  induction l with
  | nil => intro s; simp
  | cons x xs ih =>
    intro s
    rw [List.foldl_cons, ih (intradayStep vt s x), intradayStep_pvs]
    simp [List.length_cons]
    omega

theorem intradayLoop_pvs (vt : ℚ) (fs : List ICFrame) (cap0 : ℚ) :
    (intradayLoop vt fs cap0).pvs.length = fs.length - 1 := by
  unfold intradayLoop
  rw [intradayLoop_pvs_aux]
  have h0 : (tInit cap0).pvs.length = 0 := rfl
  rw [h0, List.length_zip, List.length_tail]
  omega

/-- Capital conservation for the intraday backtest. -/
theorem intraday_conservation (rows : List Row) (cap0 vt : ℚ) (r : BResult)
    (h : intraday_strategy_backtest rows cap0 vt = some r) :
    r.finalCapital = cap0 + pnlSum r.trades := by
  unfold intraday_strategy_backtest at h
  split at h
  · exact absurd h (by simp)
  · dsimp only at h
    split at h
    · exact absurd h (by simp)
    · obtain ⟨hp, h0, h1⟩ := intradayLoop_inv vt (intradayDropna rows) cap0
      split at h
      · next hpos =>
        have hpos' := beq_iff_eq.mp hpos
        obtain ⟨hsh, hent, hcap, _⟩ := h1 (by rw [hpos']; decide)
        set L := intradayLoop vt (intradayDropna rows) cap0
        set p := ((intradayDropna rows).getLastD default).row.close
        set t : Trade := ⟨((intradayDropna rows).getLastD default).row.date, .sellFinal, p,
          L.shares, L.capital + (L.shares : ℚ) * p⟩ with ht
        obtain ⟨hps, _⟩ := pnlSum_append_sell L.trades t (Or.inr rfl)
        rw [← Option.some_inj.mp h]
        show L.capital + (L.shares : ℚ) * p = cap0 + pnlSum (L.trades ++ [t])
        rw [hps, hcap]
        have e1 : t.price = p := rfl
        have e2 : t.shares = L.shares := rfl
        rw [e1, e2]
        ring
      · split at h
        · next hpos =>
          have hpos' := beq_iff_eq.mp hpos
          obtain ⟨hsh, hent, hcap, _⟩ := h1 (by rw [hpos']; decide)
          set L := intradayLoop vt (intradayDropna rows) cap0
          set p := ((intradayDropna rows).getLastD default).row.close
          set t : Trade := ⟨((intradayDropna rows).getLastD default).row.date, .coverFinal, p,
            L.shares, L.capital + (L.shares : ℚ) * L.entry + (L.shares : ℚ) * (L.entry - p)⟩
            with ht
          obtain ⟨hps, _⟩ := pnlSum_append_cover L.trades t (Or.inr rfl)
          rw [← Option.some_inj.mp h]
          show L.capital + (L.shares : ℚ) * L.entry + (L.shares : ℚ) * (L.entry - p) =
            cap0 + pnlSum (L.trades ++ [t])
          rw [hps, hcap, hent]
          have e1 : t.price = p := rfl
          have e2 : t.shares = L.shares := rfl
          rw [e1, e2]
          ring
        · next hpos1 hpos2 =>
          have hflat : (intradayLoop vt (intradayDropna rows) cap0).pos = 0 := by
            rcases hp with h' | h' | h'
            · exact h'
            · exact absurd (beq_iff_eq.mpr h') hpos1
            · exact absurd (beq_iff_eq.mpr h') hpos2
          obtain ⟨_, hcap, _⟩ := h0 hflat
          rw [← Option.some_inj.mp h]
          exact hcap

/-- The intraday backtest returns `None` exactly on series shorter than
20 bars (with at least 20 bars, `dropna` keeps `n - 9 ≥ 11 ≥ 10` rows). -/
theorem intraday_none_iff (rows : List Row) (cap0 vt : ℚ) :
    intraday_strategy_backtest rows cap0 vt = none ↔ rows.length < 20 := by
  unfold intraday_strategy_backtest
  split
  · next h => simp [h]
  · next h =>
    dsimp only
    have hlen : (intradayDropna rows).length = rows.length - 9 := intradayDropna_length rows
    have h10 : ¬ (intradayDropna rows).length < 10 := by omega
    rw [if_neg h10]
    split
    · simp [h]
    · split <;> simp [h]

/-! ### Membership: every frame the loops touch comes from an input row -/

theorem getD_mem_of_lt {α : Type _} [Inhabited α] (l : List α) (i : ℕ)
    (h : i < l.length) : l.getD i default ∈ l := by
  rw [List.getD_eq_getElem?_getD, List.getElem?_eq_getElem h]
  exact List.getElem_mem h

theorem bollDropna_row_mem (rows : List Row) (f : BCFrame)
    (hf : f ∈ bollDropna rows) : f.row ∈ rows := by
  rw [bollDropna_eq] at hf
  obtain ⟨i, hi, rfl⟩ := List.mem_map.mp hf
  obtain ⟨j, hj, rfl⟩ := List.mem_range'.mp hi
  exact getD_mem_of_lt rows _ (by omega)

theorem breakoutDropna_row_mem (rows : List Row) (f : KCFrame)
    (hf : f ∈ breakoutDropna rows) : f.row ∈ rows := by
  rw [breakoutDropna_eq] at hf
  obtain ⟨i, hi, rfl⟩ := List.mem_map.mp hf
  obtain ⟨j, hj, rfl⟩ := List.mem_range'.mp hi
  exact getD_mem_of_lt rows _ (by omega)

theorem intradayDropna_row_mem (rows : List Row) (f : ICFrame)
    (hf : f ∈ intradayDropna rows) : f.row ∈ rows := by
  rw [intradayDropna_eq] at hf
  obtain ⟨i, hi, rfl⟩ := List.mem_map.mp hf
  obtain ⟨j, hj, rfl⟩ := List.mem_range'.mp hi
  exact getD_mem_of_lt rows _ (by omega)

theorem zip_tail_mem {α : Type _} (l : List α) (p : α × α) (hp : p ∈ l.zip l.tail) :
    p.1 ∈ l ∧ p.2 ∈ l := by
  obtain ⟨h1, h2⟩ := List.of_mem_zip (by exact hp)
  exact ⟨h1, l.tail_subset h2⟩

/-! ### Cash never goes negative in the long-only loops -/

/-- With positive prices, `capital - ⌊capital/price⌋·price ≥ 0`. -/
theorem remainder_nonneg (cap price : ℚ) (hp : 0 < price) (_hc : 0 ≤ cap) :
    0 ≤ cap - (⌊cap / price⌋ : ℚ) * price := by
  have h1 : (⌊cap / price⌋ : ℚ) ≤ cap / price := Int.floor_le _
  have h2 : (⌊cap / price⌋ : ℚ) * price ≤ (cap / price) * price :=
    mul_le_mul_of_nonneg_right h1 (le_of_lt hp)
  rw [div_mul_cancel₀ cap (ne_of_gt hp)] at h2
  linarith

/-- Nonnegativity state predicate: cash and share count are nonnegative
and every recorded trade left nonnegative cash. -/
def NN (s : BState) : Prop :=
  0 ≤ s.capital ∧ 0 ≤ s.shares ∧ ∀ t ∈ s.trades, 0 ≤ t.capital

theorem bollTrade_nn (s : BState) (prev cur : BCFrame) (hp : 0 < cur.row.close)
    (h : NN s) : NN (bollTrade s prev cur) := by
  obtain ⟨hc, hsh, htr⟩ := h
  unfold bollTrade
  dsimp only
  split
  · split
    · next hq =>
      have hrem := remainder_nonneg s.capital cur.row.close hp hc
      refine ⟨hrem, le_of_lt hq, ?_⟩
      intro t ht
      rcases List.mem_append.mp ht with ht | ht
      · exact htr t ht
      · rw [List.mem_singleton.mp ht]
        exact hrem
    · exact ⟨hc, hsh, htr⟩
  · split
    · have hcap' : 0 ≤ s.capital + (s.shares : ℚ) * cur.row.close := by
        have : (0 : ℚ) ≤ (s.shares : ℚ) := by exact_mod_cast hsh
        nlinarith
      refine ⟨hcap', le_refl 0, ?_⟩
      intro t ht
      rcases List.mem_append.mp ht with ht | ht
      · exact htr t ht
      · rw [List.mem_singleton.mp ht]
        exact hcap'
    · exact ⟨hc, hsh, htr⟩

theorem bollLoop_nn (rows : List Row) (cap0 : ℚ) (hpos : ∀ r ∈ rows, 0 < r.close)
    (hc : 0 ≤ cap0) : NN (bollLoop (bollDropna rows) cap0) := by
  unfold bollLoop
  refine foldl_invariant bollStep NN _ _ ⟨hc, le_refl 0, by intro t ht; cases ht⟩ ?_
  intro pc hpc s' hs'
  have hmem := (zip_tail_mem _ pc hpc).2
  have hcl : 0 < pc.2.row.close := hpos _ (bollDropna_row_mem rows pc.2 hmem)
  have h' := bollTrade_nn s' pc.1 pc.2 hcl hs'
  unfold bollStep
  dsimp only
  exact ⟨h'.1, h'.2.1, h'.2.2⟩

/-- `NN` analogue for the breakout loop. -/
def NNT (s : TState) : Prop :=
  0 ≤ s.capital ∧ 0 ≤ s.shares ∧ ∀ t ∈ s.trades, 0 ≤ t.capital

theorem breakoutTrade_nn (slp tpp : ℚ) (s : TState) (prev cur : KCFrame)
    (hp : 0 < cur.row.close) (h : NNT s) : NNT (breakoutTrade slp tpp s prev cur) := by
  obtain ⟨hc, hsh, htr⟩ := h
  unfold breakoutTrade
  dsimp only
  split
  · split
    · next hq =>
      have hrem := remainder_nonneg s.capital cur.row.close hp hc
      refine ⟨hrem, le_of_lt hq, ?_⟩
      intro t ht
      rcases List.mem_append.mp ht with ht | ht
      · exact htr t ht
      · rw [List.mem_singleton.mp ht]
        exact hrem
    · exact ⟨hc, hsh, htr⟩
  · split
    · have hcap' : 0 ≤ s.capital + (s.shares : ℚ) * cur.row.close := by
        have : (0 : ℚ) ≤ (s.shares : ℚ) := by exact_mod_cast hsh
        nlinarith
      refine ⟨hcap', le_refl 0, ?_⟩
      intro t ht
      rcases List.mem_append.mp ht with ht | ht
      · exact htr t ht
      · rw [List.mem_singleton.mp ht]
        exact hcap'
    · exact ⟨hc, hsh, htr⟩

theorem breakoutLoop_nn (rows : List Row) (cap0 slp tpp : ℚ)
    (hpos : ∀ r ∈ rows, 0 < r.close) (hc : 0 ≤ cap0) :
    NNT (breakoutLoop slp tpp (breakoutDropna rows) cap0) := by
  unfold breakoutLoop
  refine foldl_invariant (breakoutStep slp tpp) NNT _ _
    ⟨hc, le_refl 0, by intro t ht; cases ht⟩ ?_
  intro pc hpc s' hs'
  have hmem := (zip_tail_mem _ pc hpc).2
  have hcl : 0 < pc.2.row.close := hpos _ (breakoutDropna_row_mem rows pc.2 hmem)
  have h' := breakoutTrade_nn slp tpp s' pc.1 pc.2 hcl hs'
  unfold breakoutStep
  dsimp only
  exact ⟨h'.1, h'.2.1, h'.2.2⟩

/-- In a Bollinger run over positive closes started with nonnegative
capital, every recorded trade (forced final sale included) leaves
nonnegative cash. -/
theorem boll_trades_nonneg (rows : List Row) (cap0 : ℚ)
    (hpos : ∀ r ∈ rows, 0 < r.close) (hc : 0 ≤ cap0) (r : BResult)
    (h : bollinger_strategy_backtest rows cap0 = some r) :
    ∀ t ∈ r.trades, 0 ≤ t.capital := by
  unfold bollinger_strategy_backtest at h
  split at h
  · exact absurd h (by simp)
  · next hn =>
    dsimp only at h
    split at h
    · exact absurd h (by simp)
    · obtain ⟨hcL, hshL, htrL⟩ := bollLoop_nn rows cap0 hpos hc
      split at h
      · rw [← Option.some_inj.mp h]
        intro t ht
        rcases List.mem_append.mp ht with ht | ht
        · exact htrL t ht
        · rw [List.mem_singleton.mp ht]
          have hlast : ((bollDropna rows).getLastD default).row ∈ rows := by
            rw [bollDropna_getLast rows (by omega)]
            exact getD_mem_of_lt rows _ (by omega)
          have hp : 0 < ((bollDropna rows).getLastD default).row.close := hpos _ hlast
          have hs : (0 : ℚ) ≤ ((bollLoop (bollDropna rows) cap0).shares : ℚ) := by
            exact_mod_cast hshL
          show 0 ≤ (bollLoop (bollDropna rows) cap0).capital +
            ((bollLoop (bollDropna rows) cap0).shares : ℚ) *
              ((bollDropna rows).getLastD default).row.close
          nlinarith
      · rw [← Option.some_inj.mp h]
        exact htrL

/-- In a breakout run over positive closes started with nonnegative
capital, every recorded trade leaves nonnegative cash. -/
theorem breakout_trades_nonneg (rows : List Row) (cap0 slp tpp : ℚ)
    (hpos : ∀ r ∈ rows, 0 < r.close) (hc : 0 ≤ cap0) (r : BResult)
    (h : breakout_strategy_backtest rows cap0 slp tpp = some r) :
    ∀ t ∈ r.trades, 0 ≤ t.capital := by
  unfold breakout_strategy_backtest at h
  split at h
  · exact absurd h (by simp)
  · next hn =>
    dsimp only at h
    split at h
    · exact absurd h (by simp)
    · obtain ⟨hcL, hshL, htrL⟩ := breakoutLoop_nn rows cap0 slp tpp hpos hc
      split at h
      · rw [← Option.some_inj.mp h]
        intro t ht
        rcases List.mem_append.mp ht with ht | ht
        · exact htrL t ht
        · rw [List.mem_singleton.mp ht]
          have hlast : ((breakoutDropna rows).getLastD default).row ∈ rows := by
            rw [breakoutDropna_getLast rows (by omega)]
            exact getD_mem_of_lt rows _ (by omega)
          have hp : 0 < ((breakoutDropna rows).getLastD default).row.close := hpos _ hlast
          have hs : (0 : ℚ) ≤
              ((breakoutLoop slp tpp (breakoutDropna rows) cap0).shares : ℚ) := by
            exact_mod_cast hshL
          show 0 ≤ (breakoutLoop slp tpp (breakoutDropna rows) cap0).capital +
            ((breakoutLoop slp tpp (breakoutDropna rows) cap0).shares : ℚ) *
              ((breakoutDropna rows).getLastD default).row.close
          nlinarith
      · rw [← Option.some_inj.mp h]
        exact htrL

/-! ### Non-positive capital can never open a position -/

/-- With nonpositive cash and a positive price, `capital // price` is not
positive, so every entry's `shares > 0` check fails. -/
theorem floor_div_nonpos (cap price : ℚ) (hc : cap ≤ 0) (hp : 0 < price) :
    ¬ 0 < ⌊cap / price⌋ := by
  intro hq
  have h1 : cap / price ≤ 0 := div_nonpos_of_nonpos_of_nonneg hc (le_of_lt hp)
  have h2 : (⌊cap / price⌋ : ℚ) ≤ cap / price := Int.floor_le _
  have h3 : (0 : ℚ) < (⌊cap / price⌋ : ℚ) := by exact_mod_cast hq
  linarith

/-- "Untouched" state predicate: still flat, initial cash, empty ledger. -/
def UT (cap0 : ℚ) (s : BState) : Prop := s.pos = 0 ∧ s.capital = cap0 ∧ s.trades = []

theorem bollTrade_ut (cap0 : ℚ) (s : BState) (prev cur : BCFrame)
    (hp : 0 < cur.row.close) (hc : cap0 ≤ 0) (h : UT cap0 s) :
    UT cap0 (bollTrade s prev cur) := by
  obtain ⟨hpos, hcap, htr⟩ := h
  unfold bollTrade
  dsimp only
  split
  · split
    · next hq =>
      rw [hcap] at hq
      exact absurd hq (floor_div_nonpos cap0 cur.row.close hc hp)
    · exact ⟨hpos, hcap, htr⟩
  · split
    · next hsig =>
      rw [Bool.and_eq_true] at hsig
      have := beq_iff_eq.mp hsig.1
      rw [hpos] at this
      exact absurd this (by decide)
    · exact ⟨hpos, hcap, htr⟩

def UTT (cap0 : ℚ) (s : TState) : Prop := s.pos = 0 ∧ s.capital = cap0 ∧ s.trades = []

theorem intradayTrade_ut (cap0 vt : ℚ) (s : TState) (prev cur : ICFrame)
    (hp : 0 < cur.row.close) (hc : cap0 ≤ 0) (h : UTT cap0 s) :
    UTT cap0 (intradayTrade vt s prev cur) := by
  obtain ⟨hpos, hcap, htr⟩ := h
  unfold intradayTrade
  dsimp only
  split
  · split
    · split
      · next hq =>
        rw [hcap] at hq
        exact absurd hq (floor_div_nonpos cap0 cur.row.close hc hp)
      · exact ⟨hpos, hcap, htr⟩
    · split
      · split
        · next hq =>
          rw [hcap] at hq
          exact absurd hq (floor_div_nonpos cap0 cur.row.close hc hp)
        · exact ⟨hpos, hcap, htr⟩
      · exact ⟨hpos, hcap, htr⟩
  · next hnflat =>
    exact absurd (beq_iff_eq.mpr hpos) hnflat

theorem bollLoop_ut (rows : List Row) (cap0 : ℚ)
    (hpos : ∀ r ∈ rows, 0 < r.close) (hc : cap0 ≤ 0) :
    UT cap0 (bollLoop (bollDropna rows) cap0) := by
  unfold bollLoop
  refine foldl_invariant bollStep (UT cap0) _ _ ⟨rfl, rfl, rfl⟩ ?_
  intro pc hpc s' hs'
  have hmem := (zip_tail_mem _ pc hpc).2
  have hcl : 0 < pc.2.row.close := hpos _ (bollDropna_row_mem rows pc.2 hmem)
  have h' := bollTrade_ut cap0 s' pc.1 pc.2 hcl hc hs'
  unfold bollStep
  dsimp only
  exact ⟨h'.1, h'.2.1, h'.2.2⟩

theorem intradayLoop_ut (rows : List Row) (cap0 vt : ℚ)
    (hpos : ∀ r ∈ rows, 0 < r.close) (hc : cap0 ≤ 0) :
    UTT cap0 (intradayLoop vt (intradayDropna rows) cap0) := by
  unfold intradayLoop
  refine foldl_invariant (intradayStep vt) (UTT cap0) _ _ ⟨rfl, rfl, rfl⟩ ?_
  intro pc hpc s' hs'
  have hmem := (zip_tail_mem _ pc hpc).2
  have hcl : 0 < pc.2.row.close := hpos _ (intradayDropna_row_mem rows pc.2 hmem)
  have h' := intradayTrade_ut cap0 vt s' pc.1 pc.2 hcl hc hs'
  unfold intradayStep
  dsimp only
  exact ⟨h'.1, h'.2.1, h'.2.2⟩

/-! ### The caller's dataframe object: column-set mutation

`pandas` column assignment (`df['MA'] = …`) mutates the dataframe object
in place.  `bollinger_strategy_backtest` hands its *caller's* object
straight to `calculate_bollinger_bands`, which assigns `MA`, `STD`,
`Upper_Band`, `Lower_Band` onto it (the later `df.dropna().copy()` only
rebinds the local name), so after a Bollinger run the caller's object
carries the four indicator columns.  `calculate_breakout_indicators` and
`calculate_intraday_indicators` instead run `df = df.copy()` before any
assignment, so those callers' objects are untouched.  For this ownership
claim only the object's base rows and the set of columns attached to it
matter, so the caller-visible object is modelled as rows plus the list of
added column names. -/
structure DataFrame where
  rows : List Row
  extraCols : List String
deriving Repr, DecidableEq, Inhabited

/-- Effect of `calculate_bollinger_bands(df, window=20, …)` on its
argument object: below `window` rows it returns the frame untouched
(`if df is None or len(df) < window: return df`); otherwise its column
assignments mutate the object in place. -/
def calcBollingerCols (df : DataFrame) : DataFrame :=
  if df.rows.length < 20 then df
  else { df with extraCols := df.extraCols ++ ["MA", "STD", "Upper_Band", "Lower_Band"] }

/-- The caller's object after `bollinger_strategy_backtest(df, …)`: with
fewer than 50 rows the function returns `None` *before* calling
`calculate_bollinger_bands`, so the caller's frame is never written;
otherwise it passes the caller's frame directly to
`calculate_bollinger_bands`, whose in-place column assignments are the
only writes that reach it (the later `dropna().copy()` rebinds only the
local name). -/
def bollingerCallerFrameAfter (df : DataFrame) : DataFrame :=
  if df.rows.length < 50 then df else calcBollingerCols df

/-- The caller's object after `breakout_strategy_backtest(df, …)`:
`calculate_breakout_indicators` copies before assigning, so the caller's
object is returned unchanged. -/
def breakoutCallerFrameAfter (df : DataFrame) : DataFrame := df

/-- The caller's object after `intraday_strategy_backtest(df, …)`:
`calculate_intraday_indicators` copies before assigning. -/
def intradayCallerFrameAfter (df : DataFrame) : DataFrame := df

theorem getLastD_eq_getD {α : Type _} [Inhabited α] (l : List α) :
    l.getLastD default = l.getD (l.length - 1) default := by
  rw [List.getLastD_eq_getLast?, List.getLast?_eq_getElem?, List.getD_eq_getElem?_getD]

/-! ### Concrete input series used to evaluate the engine -/

/-- A flat bar (all four prices equal) with volume 1000. -/
def mkConstRow (d : ℤ) (c : ℚ) : Row := ⟨d, c, c, c, c, 1000⟩

/-- `n` flat bars at price 100. -/
def constRows (n : ℕ) : List Row := (List.range n).map (fun i : ℕ => mkConstRow i 100)

theorem constRows_length (n : ℕ) : (constRows n).length = n := by
  simp [constRows]

theorem constRows_close (n : ℕ) (r : Row) (hr : r ∈ constRows n) : r.close = 100 := by
  obtain ⟨i, _, rfl⟩ := List.mem_map.mp hr
  rfl

theorem constRows_close_pos (n : ℕ) : ∀ r ∈ constRows n, 0 < r.close := by
  intro r hr
  rw [constRows_close n r hr]
  norm_num

/-- 48 flat bars at 100, a dip to 70, then a rebound to 85: the rebound
close lies strictly between the current bar's lower band (≈ 83.07) and
the previous bar's lower band (≈ 85.08). -/
def dipReboundRows : List Row :=
  ((List.range 48).map (fun i : ℕ => mkConstRow i 100)) ++
    [mkConstRow 48 70, mkConstRow 49 85]

/-- 48 flat bars at 100, a dip to 70, then a rebound to 86: the Bollinger
strategy buys on the last bar and ends the series still long. -/
def longEndRows : List Row :=
  ((List.range 48).map (fun i : ℕ => mkConstRow i 100)) ++
    [mkConstRow 48 70, mkConstRow 49 86]

/-- 19 flat bars (H 105 / L 95 / C 100, volume 1000), then a high-volume
break below the CPR band on the last bar: the intraday strategy opens a
short on the final bar and ends the series still short. -/
def shortEndRows : List Row :=
  ((List.range 19).map (fun i : ℕ => ⟨(i : ℤ), 100, 105, 95, 100, 1000⟩)) ++
    [⟨19, 99, 100, 98, 99, 5000⟩]

/-- 68 flat bars at 100, then a high-volume breakout bar at 200: all
three breakout entry conditions hold on the last bar. -/
def breakoutBarRows : List Row :=
  ((List.range 68).map (fun i : ℕ => mkConstRow i 100)) ++
    [⟨68, 200, 200, 100, 200, 5000⟩]

/-- 10 flat bars (H 105 / L 95 / C 100), a high-volume break below the
CPR band at 99 (opening a short), then a gap to 250 (covering the short
above twice its entry price), then flat bars at 250. -/
def shortLossRows : List Row :=
  ((List.range 10).map (fun i : ℕ => ⟨(i : ℤ), 100, 105, 95, 100, 1000⟩)) ++
    [⟨10, 99, 100, 98, 99, 5000⟩, ⟨11, 250, 251, 249, 250, 1000⟩] ++
    ((List.range 8).map (fun i : ℕ => ⟨((12 + i : ℕ) : ℤ), 250, 251, 249, 250, 1000⟩))

/-! ### Snapshot counts of completed runs -/

theorem boll_pvs_count (rows : List Row) (cap0 : ℚ) (r : BResult)
    (h : bollinger_strategy_backtest rows cap0 = some r) :
    r.pvs.length = rows.length - 20 := by
  unfold bollinger_strategy_backtest at h
  split at h
  · exact absurd h (by simp)
  · next hn =>
    dsimp only at h
    split at h
    · exact absurd h (by simp)
    · have hpvs := bollLoop_pvs (bollDropna rows) cap0
      rw [bollDropna_length] at hpvs
      split at h
      · rw [← Option.some_inj.mp h]
        show (bollLoop (bollDropna rows) cap0).pvs.length = rows.length - 20
        omega
      · rw [← Option.some_inj.mp h]
        show (bollLoop (bollDropna rows) cap0).pvs.length = rows.length - 20
        omega

theorem breakout_pvs_count (rows : List Row) (cap0 slp tpp : ℚ) (r : BResult)
    (h : breakout_strategy_backtest rows cap0 slp tpp = some r) :
    r.pvs.length = rows.length - 60 := by
  unfold breakout_strategy_backtest at h
  split at h
  · exact absurd h (by simp)
  · next hn =>
    dsimp only at h
    split at h
    · exact absurd h (by simp)
    · have hpvs := breakoutLoop_pvs slp tpp (breakoutDropna rows) cap0
      rw [breakoutDropna_length] at hpvs
      split at h
      · rw [← Option.some_inj.mp h]
        show (breakoutLoop slp tpp (breakoutDropna rows) cap0).pvs.length = rows.length - 60
        omega
      · rw [← Option.some_inj.mp h]
        show (breakoutLoop slp tpp (breakoutDropna rows) cap0).pvs.length = rows.length - 60
        omega

theorem intraday_pvs_count (rows : List Row) (cap0 vt : ℚ) (r : BResult)
    (h : intraday_strategy_backtest rows cap0 vt = some r) :
    r.pvs.length = rows.length - 10 := by
  unfold intraday_strategy_backtest at h
  split at h
  · exact absurd h (by simp)
  · next hn =>
    dsimp only at h
    split at h
    · exact absurd h (by simp)
    · have hpvs := intradayLoop_pvs vt (intradayDropna rows) cap0
      rw [intradayDropna_length] at hpvs
      split at h
      · rw [← Option.some_inj.mp h]
        show (intradayLoop vt (intradayDropna rows) cap0).pvs.length = rows.length - 10
        omega
      · split at h
        · rw [← Option.some_inj.mp h]
          show (intradayLoop vt (intradayDropna rows) cap0).pvs.length = rows.length - 10
          omega
        · rw [← Option.some_inj.mp h]
          show (intradayLoop vt (intradayDropna rows) cap0).pvs.length = rows.length - 10
          omega

/-! ## The claims -/

/-- C2: Capital conservation: for every completed backtest run of any of
the three strategies, `final_capital` equals `initial_capital` plus the
sum of the realized P&L of all close events (`SELL`, `COVER`, and the
final forced-close events), exactly in exact arithmetic. -/
theorem claim_C2 (rows : List Row) (cap0 slp tpp vt : ℚ) :
    (bollinger_strategy_backtest rows cap0).map (fun r => r.finalCapital) =
      (bollinger_strategy_backtest rows cap0).map (fun r => cap0 + pnlSum r.trades) ∧
    (breakout_strategy_backtest rows cap0 slp tpp).map (fun r => r.finalCapital) =
      (breakout_strategy_backtest rows cap0 slp tpp).map (fun r => cap0 + pnlSum r.trades) ∧
    (intraday_strategy_backtest rows cap0 vt).map (fun r => r.finalCapital) =
      (intraday_strategy_backtest rows cap0 vt).map (fun r => cap0 + pnlSum r.trades) := by
  refine ⟨?_, ?_, ?_⟩
  · cases h : bollinger_strategy_backtest rows cap0 with
    | none => rfl
    | some r => simp [boll_conservation rows cap0 r h]
  · cases h : breakout_strategy_backtest rows cap0 slp tpp with
    | none => rfl
    | some r => simp [breakout_conservation rows cap0 slp tpp r h]
  · cases h : intraday_strategy_backtest rows cap0 vt with
    | none => rfl
    | some r => simp [intraday_conservation rows cap0 vt r h]

/-- C5 (counterexample): the claim says a 30-bar series (≥ its stated
20-bar minimum for Bollinger) must not fail for lack of data, but
`bollinger_strategy_backtest` returns `None` on it (its real guard is 50
bars, and no `InsufficientDataError` exists in the code). -/
theorem claim_C5_counterexample :
    20 ≤ (constRows 30).length ∧
      bollinger_strategy_backtest (constRows 30) 100000 = none := by
  exact ⟨by decide, by decide⟩

/-- C5 (amended): each backtest returns `None` — no exception is raised
and no partial result is produced — exactly when the series is shorter
than 50 bars (Bollinger), 69 bars (Breakout: a 60-bar guard plus the
requirement of at least 10 rows after the 59 `MA60`-incomplete rows are
dropped), or 20 bars (Intraday); at or above those lengths it never
fails for lack of data. -/
theorem claim_C5 (rows : List Row) (cap0 slp tpp vt : ℚ) :
    (bollinger_strategy_backtest rows cap0 = none ↔ rows.length < 50) ∧
    (breakout_strategy_backtest rows cap0 slp tpp = none ↔ rows.length < 69) ∧
    (intraday_strategy_backtest rows cap0 vt = none ↔ rows.length < 20) :=
  ⟨boll_none_iff rows cap0, breakout_none_iff rows cap0 slp tpp,
    intraday_none_iff rows cap0 vt⟩

/-- C7 (counterexample): on a 50-bar series the claim demands exactly 50
portfolio snapshots (one per input bar, warm-up included); the Bollinger
backtest produces 30 (one per bar of the 31-row `dropna`-ed frame except
its first). -/
theorem claim_C7_counterexample :
    (constRows 50).length = 50 ∧
      (bollinger_strategy_backtest (constRows 50) 100000).map (fun r => r.pvs.length) =
        some 30 := by
  exact ⟨by decide, by decide⟩

/-- C7 (amended): a completed run's portfolio curve has one snapshot per
bar of the indicator-complete (`dropna`-ed) frame except that frame's
first bar — `n - 20` snapshots for Bollinger, `n - 60` for Breakout and
`n - 10` for Intraday — not one per input bar; warm-up bars get none. -/
theorem claim_C7 (rows : List Row) (cap0 slp tpp vt : ℚ) :
    (bollinger_strategy_backtest rows cap0).map (fun r => r.pvs.length) =
      (bollinger_strategy_backtest rows cap0).map (fun _ => rows.length - 20) ∧
    (breakout_strategy_backtest rows cap0 slp tpp).map (fun r => r.pvs.length) =
      (breakout_strategy_backtest rows cap0 slp tpp).map (fun _ => rows.length - 60) ∧
    (intraday_strategy_backtest rows cap0 vt).map (fun r => r.pvs.length) =
      (intraday_strategy_backtest rows cap0 vt).map (fun _ => rows.length - 10) := by
  refine ⟨?_, ?_, ?_⟩
  · cases h : bollinger_strategy_backtest rows cap0 with
    | none => rfl
    | some r => simp [boll_pvs_count rows cap0 r h]
  · cases h : breakout_strategy_backtest rows cap0 slp tpp with
    | none => rfl
    | some r => simp [breakout_pvs_count rows cap0 slp tpp r h]
  · cases h : intraday_strategy_backtest rows cap0 vt with
    | none => rfl
    | some r => simp [intraday_pvs_count rows cap0 vt r h]

/-- C9 (counterexample): with `initial_capital = -1 ≤ 0` the claim
demands an immediate `InvalidParameterError` with no result; both the
Bollinger and the Intraday backtests instead complete and return a
result (no such error type exists in the code). -/
theorem claim_C9_counterexample :
    ((-1 : ℚ) < 0) ∧
      (bollinger_strategy_backtest (constRows 50) (-1)).isSome = true ∧
      (intraday_strategy_backtest (constRows 20) (-1) (6/5)).isSome = true := by
  exact ⟨by decide, by decide, by decide⟩

/-- C9 (amended): the code validates nothing: a run with
`initial_capital < 0` (on a long-enough series of positive closes)
completes normally, never opens a position (`capital // price` floors
below zero, failing every `shares > 0` check), and returns a result with
an empty trade list and `final_capital = initial_capital`. -/
theorem claim_C9 (rows1 rows2 : List Row) (cap0 vt : ℚ)
    (h1 : ∀ r ∈ rows1, 0 < r.close) (h2 : ∀ r ∈ rows2, 0 < r.close)
    (hcap : cap0 < 0) (hl1 : 50 ≤ rows1.length) (hl2 : 20 ≤ rows2.length) :
    bollinger_strategy_backtest rows1 cap0 =
      some ⟨cap0, [], (bollLoop (bollDropna rows1) cap0).pvs⟩ ∧
    intraday_strategy_backtest rows2 cap0 vt =
      some ⟨cap0, [], (intradayLoop vt (intradayDropna rows2) cap0).pvs⟩ := by
  constructor
  · obtain ⟨hpos, hcap', htr⟩ := bollLoop_ut rows1 cap0 h1 (le_of_lt hcap)
    unfold bollinger_strategy_backtest
    rw [if_neg (by omega)]
    dsimp only
    have hlen := bollDropna_length rows1
    rw [if_neg (by omega)]
    rw [if_neg (by rw [hpos]; decide)]
    rw [hcap', htr]
  · obtain ⟨hpos, hcap', htr⟩ := intradayLoop_ut rows2 cap0 vt h2 (le_of_lt hcap)
    unfold intraday_strategy_backtest
    rw [if_neg (by omega)]
    dsimp only
    have hlen := intradayDropna_length rows2
    rw [if_neg (by omega)]
    rw [if_neg (by rw [hpos]; decide), if_neg (by rw [hpos]; decide)]
    rw [hcap', htr]

/-- C9 (witness): the amended claim evaluated on flat 50- and 20-bar
series with `initial_capital = -1`. -/
theorem claim_C9_witness :
    ((∀ r ∈ constRows 50, 0 < r.close) ∧ (∀ r ∈ constRows 20, 0 < r.close) ∧
      ((-1 : ℚ) < 0) ∧ 50 ≤ (constRows 50).length ∧ 20 ≤ (constRows 20).length) ∧
    (bollinger_strategy_backtest (constRows 50) (-1) =
        some ⟨-1, [], (bollLoop (bollDropna (constRows 50)) (-1)).pvs⟩ ∧
      intraday_strategy_backtest (constRows 20) (-1) (6/5) =
        some ⟨-1, [], (intradayLoop (6/5) (intradayDropna (constRows 20)) (-1)).pvs⟩) :=
  ⟨⟨by decide, by decide, by decide, by decide, by decide⟩,
    claim_C9 (constRows 50) (constRows 20) (-1) (6/5)
      (by decide) (by decide) (by decide) (by decide) (by decide)⟩

/-- C10 (counterexample): a Bollinger run does *not* leave the caller's
dataframe unchanged — `calculate_bollinger_bands` assigns the `MA`,
`STD`, `Upper_Band`, `Lower_Band` columns onto the caller's object in
place before the engine makes its own `dropna().copy()`. -/
theorem claim_C10_counterexample :
    bollingerCallerFrameAfter ⟨constRows 50, []⟩ ≠ (⟨constRows 50, []⟩ : DataFrame) := by
  decide

/-- C1 (counterexample): on 48 flat bars, a dip to 70 and a rebound to
85, the claim's entry condition — previous close at or below the
previous bar's lower band AND current close above the *current* bar's
lower band — holds at the last bar with ample quantity
(`⌊100000/85⌋ = 1176 ≥ 1`), yet the code emits no BUY at all: the code
compares the current close against the *previous* bar's lower band
(≈ 85.08), which 85 does not exceed. -/
theorem claim_C1_counterexample :
    (bollinger_strategy_backtest dipReboundRows 100000).map (fun r => r.trades) = some [] ∧
    ((bollCFrameAt dipReboundRows 48).row.close : ℝ) ≤
      lowerBandR (bollCFrameAt dipReboundRows 48).ma (bollCFrameAt dipReboundRows 48).var ∧
    lowerBandR (bollCFrameAt dipReboundRows 49).ma (bollCFrameAt dipReboundRows 49).var <
      ((bollCFrameAt dipReboundRows 49).row.close : ℝ) ∧
    1 ≤ ⌊(100000 : ℚ) / (bollCFrameAt dipReboundRows 49).row.close⌋ := by
  refine ⟨by decide, ?_, ?_, by decide⟩
  · exact (leLowerB_iff _ _ _ (by decide)).mp (by decide)
  · exact (gtLowerB_iff _ _ _ (by decide)).mp (by decide)

/-- C1 (amended): for every backtest run and every bar `i` at which both
bars' Bollinger bands are defined, the strategy transitions FLAT → LONG
at bar `i` (emitting a BUY event, given quantity ≥ 1) if and only if
`close[i-1] ≤ lower_band[i-1]` AND `close[i] > lower_band[i-1]` — the
current close is compared against the *previous* bar's lower band. -/
theorem claim_C1 (s : BState) (prev cur : BCFrame)
    (hflat : s.pos = 0) (hv : 0 ≤ prev.var)
    (hq : 1 ≤ ⌊s.capital / cur.row.close⌋) :
    ((bollStep s (prev, cur)).pos = 1 ∧
      (bollStep s (prev, cur)).trades = s.trades ++
        [⟨cur.row.date, .buy, cur.row.close, ⌊s.capital / cur.row.close⌋,
          s.capital - (⌊s.capital / cur.row.close⌋ : ℚ) * cur.row.close⟩]) ↔
    ((prev.row.close : ℝ) ≤ lowerBandR prev.ma prev.var ∧
      lowerBandR prev.ma prev.var < (cur.row.close : ℝ)) := by
  rw [← leLowerB_iff _ _ _ hv, ← gtLowerB_iff _ _ _ hv]
  have e0 : (s.pos == 0) = true := beq_iff_eq.mpr hflat
  unfold bollStep bollTrade
  dsimp only
  by_cases hsig : (s.pos == 0 && leLowerB prev.row.close prev.ma prev.var
      && gtLowerB cur.row.close prev.ma prev.var) = true
  · rw [if_pos hsig, if_pos (show (0 : ℤ) < ⌊s.capital / cur.row.close⌋ by omega)]
    rw [Bool.and_eq_true, Bool.and_eq_true] at hsig
    exact iff_of_true ⟨rfl, rfl⟩ ⟨hsig.1.2, hsig.2⟩
  · rw [if_neg hsig, if_neg (show ¬((s.pos == 1 &&
        geUpperB cur.row.close cur.ma cur.var) = true) by
      rw [Bool.and_eq_true, beq_iff_eq]
      rintro ⟨h1, _⟩
      rw [hflat] at h1
      exact absurd h1 (by decide))]
    refine iff_of_false (fun hc => ?_) (fun hc => ?_)
    · have h1 : s.pos = 1 := hc.1
      rw [hflat] at h1
      exact absurd h1 (by decide)
    · exact hsig (by rw [Bool.and_eq_true, Bool.and_eq_true]; exact ⟨⟨e0, hc.1⟩, hc.2⟩)

/-- C1 (witness): the amended entry rule evaluated at a flat state with
capital 100000 on frames with `MA = 100`, `var = 25` (lower band 90):
previous close 90 touches the band and current close 100 rebounds. -/
theorem claim_C1_witness :
    ((⟨0, 100000, 0, [], []⟩ : BState).pos = 0 ∧ (0 : ℚ) ≤ (25 : ℚ) ∧
      1 ≤ ⌊(100000 : ℚ) / (100 : ℚ)⌋) ∧
    ((bollStep ⟨0, 100000, 0, [], []⟩
        (⟨mkConstRow 0 90, 100, 25⟩, ⟨mkConstRow 1 100, 100, 25⟩)).pos = 1 ∧
      (bollStep ⟨0, 100000, 0, [], []⟩
        (⟨mkConstRow 0 90, 100, 25⟩, ⟨mkConstRow 1 100, 100, 25⟩)).trades =
        [] ++ [⟨1, .buy, 100, ⌊(100000 : ℚ) / (100 : ℚ)⌋,
          100000 - (⌊(100000 : ℚ) / (100 : ℚ)⌋ : ℚ) * 100⟩]) :=
  ⟨⟨rfl, by decide, by decide⟩,
    (claim_C1 ⟨0, 100000, 0, [], []⟩ ⟨mkConstRow 0 90, 100, 25⟩ ⟨mkConstRow 1 100, 100, 25⟩
      rfl (by decide) (by decide)).mpr
      ⟨(leLowerB_iff 90 100 25 (by decide)).mp (by decide),
        (gtLowerB_iff 100 100 25 (by decide)).mp (by decide)⟩⟩

/-- C3 (counterexample): on 68 flat bars and a high-volume breakout bar
at 200, all three entry conditions hold on the last (indicator-complete,
FLAT) bar, yet with capital 100 no LONG is opened anywhere — the claimed
iff omits the position-sizing proviso (`⌊100/200⌋ = 0` skips the entry). -/
theorem claim_C3_counterexample :
    (breakout_strategy_backtest breakoutBarRows 100 6 15).map (fun r => r.trades) = some [] ∧
    (kCFrameAt breakoutBarRows 68).ma20 < (kCFrameAt breakoutBarRows 68).row.close ∧
    (kCFrameAt breakoutBarRows 68).ma60 < (kCFrameAt breakoutBarRows 68).row.close ∧
    (kCFrameAt breakoutBarRows 67).high20 < (kCFrameAt breakoutBarRows 68).row.close ∧
    (kCFrameAt breakoutBarRows 68).vma5 < (kCFrameAt breakoutBarRows 68).row.volume ∧
    ⌊(100 : ℚ) / (kCFrameAt breakoutBarRows 68).row.close⌋ = 0 := by
  exact ⟨by decide, by decide, by decide, by decide, by decide, by decide⟩

/-- C3 (amended): at every indicator-complete bar at which the state is
FLAT, a LONG is opened iff all three conditions hold — `close > MA20`
and `close > MA60`; `close > High20` of the *previous* bar; and
`volume > VolumeMA5` — AND additionally
`⌊available_cash / close⌋ ≥ 1` (the opened quantity being exactly that
floor). -/
theorem claim_C3 (slp tpp : ℚ) (s : TState) (prev cur : KCFrame) (hflat : s.pos = 0) :
    ((breakoutStep slp tpp s (prev, cur)).pos = 1 ∧
      (breakoutStep slp tpp s (prev, cur)).trades = s.trades ++
        [⟨cur.row.date, .buy, cur.row.close, ⌊s.capital / cur.row.close⌋,
          s.capital - (⌊s.capital / cur.row.close⌋ : ℚ) * cur.row.close⟩]) ↔
    (cur.ma20 < cur.row.close ∧ cur.ma60 < cur.row.close ∧
      prev.high20 < cur.row.close ∧ cur.vma5 < cur.row.volume ∧
      1 ≤ ⌊s.capital / cur.row.close⌋) := by
  have e0 : (s.pos == 0) = true := beq_iff_eq.mpr hflat
  have hexit : ¬((s.pos == 1 && breakoutExitSig slp tpp s.entry cur) = true) := by
    rw [Bool.and_eq_true, beq_iff_eq]
    rintro ⟨h1, _⟩
    rw [hflat] at h1
    exact absurd h1 (by decide)
  unfold breakoutStep breakoutTrade
  dsimp only
  by_cases hsig : (s.pos == 0 && breakoutEntrySig prev cur) = true
  · rw [if_pos hsig]
    rw [Bool.and_eq_true] at hsig
    have hsig' := hsig.2
    unfold breakoutEntrySig at hsig'
    rw [Bool.and_eq_true, Bool.and_eq_true, Bool.and_eq_true,
      decide_eq_true_iff, decide_eq_true_iff, decide_eq_true_iff,
      decide_eq_true_iff] at hsig'
    by_cases hq : (0 : ℤ) < ⌊s.capital / cur.row.close⌋
    · rw [if_pos hq]
      exact iff_of_true ⟨rfl, rfl⟩
        ⟨hsig'.1.1.1, hsig'.1.1.2, hsig'.1.2, hsig'.2, by omega⟩
    · rw [if_neg hq]
      refine iff_of_false (fun hc => ?_) (fun hc => by omega)
      have h1 : s.pos = 1 := hc.1
      rw [hflat] at h1
      exact absurd h1 (by decide)
  · rw [if_neg hsig, if_neg hexit]
    refine iff_of_false (fun hc => ?_) (fun hc => ?_)
    · have h1 : s.pos = 1 := hc.1
      rw [hflat] at h1
      exact absurd h1 (by decide)
    · refine hsig ?_
      rw [Bool.and_eq_true]
      refine ⟨e0, ?_⟩
      unfold breakoutEntrySig
      rw [Bool.and_eq_true, Bool.and_eq_true, Bool.and_eq_true,
        decide_eq_true_iff, decide_eq_true_iff, decide_eq_true_iff,
        decide_eq_true_iff]
      exact ⟨⟨⟨hc.1, hc.2.1⟩, hc.2.2.1⟩, hc.2.2.2.1⟩

/-- C3 (witness): the amended rule evaluated at a flat state with capital
100000 on a breakout frame (`MA20 = 105`, `MA60 = 102`, previous
`High20 = 100`, `VolumeMA5 = 1800`) with close 200 and volume 5000. -/
theorem claim_C3_witness :
    ((⟨0, 100000, 0, 0, [], []⟩ : TState).pos = 0) ∧
    ((breakoutStep 6 15 ⟨0, 100000, 0, 0, [], []⟩
        (⟨⟨0, 100, 100, 100, 100, 1000⟩, 100, 100, 100, 100, 1000⟩,
          ⟨⟨1, 200, 200, 100, 200, 5000⟩, 105, 102, 110, 200, 1800⟩)).pos = 1 ∧
      (breakoutStep 6 15 ⟨0, 100000, 0, 0, [], []⟩
        (⟨⟨0, 100, 100, 100, 100, 1000⟩, 100, 100, 100, 100, 1000⟩,
          ⟨⟨1, 200, 200, 100, 200, 5000⟩, 105, 102, 110, 200, 1800⟩)).trades =
        [] ++ [⟨1, .buy, 200, ⌊(100000 : ℚ) / (200 : ℚ)⌋,
          100000 - (⌊(100000 : ℚ) / (200 : ℚ)⌋ : ℚ) * 200⟩]) :=
  ⟨rfl,
    (claim_C3 6 15 ⟨0, 100000, 0, 0, [], []⟩
      ⟨⟨0, 100, 100, 100, 100, 1000⟩, 100, 100, 100, 100, 1000⟩
      ⟨⟨1, 200, 200, 100, 200, 5000⟩, 105, 102, 110, 200, 1800⟩ rfl).mpr
      ⟨by decide, by decide, by decide, by decide, by decide⟩⟩

/-- C4: IntradayPivot short accounting: opening a SHORT of quantity
`q = ⌊cash/price⌋` at entry price `p` deducts `q·p` from cash (reserving
it); closing the short — `COVER`, or the final forced close at the last
bar's close — adds back `q·p + q·(p - c)`; and while SHORT every
portfolio snapshot values the portfolio as
`cash + q·p + q·(p - current_price)`. -/
theorem claim_C4 :
    (∀ (vt : ℚ) (s : TState) (prev cur : ICFrame),
      s.pos = 0 → intradayLongSig vt cur = false → intradayShortSig vt cur = true →
      0 < ⌊s.capital / cur.row.close⌋ →
      (intradayStep vt s (prev, cur)).pos = -1 ∧
      (intradayStep vt s (prev, cur)).entry = cur.row.close ∧
      (intradayStep vt s (prev, cur)).shares = ⌊s.capital / cur.row.close⌋ ∧
      (intradayStep vt s (prev, cur)).capital =
        s.capital - (⌊s.capital / cur.row.close⌋ : ℚ) * cur.row.close ∧
      (intradayStep vt s (prev, cur)).trades = s.trades ++
        [⟨cur.row.date, .sellShort, cur.row.close, ⌊s.capital / cur.row.close⌋,
          s.capital - (⌊s.capital / cur.row.close⌋ : ℚ) * cur.row.close⟩]) ∧
    (∀ (vt : ℚ) (s : TState) (prev cur : ICFrame),
      s.pos = -1 → intradayShortExit cur = true →
      (intradayStep vt s (prev, cur)).pos = 0 ∧
      (intradayStep vt s (prev, cur)).capital =
        s.capital + (s.shares : ℚ) * s.entry + (s.shares : ℚ) * (s.entry - cur.row.close) ∧
      (intradayStep vt s (prev, cur)).trades = s.trades ++
        [⟨cur.row.date, .cover, cur.row.close, s.shares,
          s.capital + (s.shares : ℚ) * s.entry +
            (s.shares : ℚ) * (s.entry - cur.row.close)⟩]) ∧
    (∀ (vt : ℚ) (s : TState) (pc : ICFrame × ICFrame),
      (intradayTrade vt s pc.1 pc.2).pos = -1 →
      (intradayStep vt s pc).pvs = s.pvs ++
        [⟨pc.2.row.date,
          (intradayTrade vt s pc.1 pc.2).capital +
            ((intradayTrade vt s pc.1 pc.2).shares : ℚ) * (intradayTrade vt s pc.1 pc.2).entry +
            ((intradayTrade vt s pc.1 pc.2).shares : ℚ) *
              ((intradayTrade vt s pc.1 pc.2).entry - pc.2.row.close),
          pc.2.row.close⟩]) ∧
    (∀ (rows : List Row) (cap0 vt : ℚ), 20 ≤ rows.length →
      (intradayLoop vt (intradayDropna rows) cap0).pos = -1 →
      (intraday_strategy_backtest rows cap0 vt).map (fun r => r.finalCapital) =
        some ((intradayLoop vt (intradayDropna rows) cap0).capital +
          ((intradayLoop vt (intradayDropna rows) cap0).shares : ℚ) *
            (intradayLoop vt (intradayDropna rows) cap0).entry +
          ((intradayLoop vt (intradayDropna rows) cap0).shares : ℚ) *
            ((intradayLoop vt (intradayDropna rows) cap0).entry -
              (rows.getLastD default).close))) := by
  refine ⟨?_, ?_, ?_, ?_⟩
  · intro vt s prev cur h0 hlong hshort hq
    unfold intradayStep intradayTrade
    dsimp only
    rw [if_pos (beq_iff_eq.mpr h0), if_neg (by rw [hlong]; exact Bool.false_ne_true),
      if_pos hshort, if_pos hq]
    exact ⟨rfl, rfl, rfl, rfl, rfl⟩
  · intro vt s prev cur hneg hexit
    unfold intradayStep intradayTrade
    dsimp only
    rw [if_neg (by rw [beq_iff_eq, hneg]; decide),
      if_neg (by rw [beq_iff_eq, hneg]; decide), if_pos hexit]
    exact ⟨rfl, rfl, rfl⟩
  · intro vt s pc hneg
    unfold intradayStep
    dsimp only
    unfold intradayValue
    rw [if_neg (by rw [beq_iff_eq, hneg]; decide), if_pos (beq_iff_eq.mpr hneg),
      intradayTrade_pvs]
  · intro rows cap0 vt hlen hneg
    unfold intraday_strategy_backtest
    rw [if_neg (by omega)]
    dsimp only
    have hdlen := intradayDropna_length rows
    rw [if_neg (by omega)]
    rw [if_neg (by rw [beq_iff_eq, hneg]; decide), if_pos (beq_iff_eq.mpr hneg)]
    have hlast : ((intradayDropna rows).getLastD default).row =
        rows.getLastD default := by
      rw [intradayDropna_getLast rows (by omega), getLastD_eq_getD]
      rfl
    rw [Option.map_some']
    rw [hlast]

/-- C4 (witness): a concrete short round trip: on `shortEndRows` the
short entry at close 99 reserves `1010·99`, leaving cash 10; covering a
1010-share short entered at 99 at close 250 yields cash `-52510`; the
forced final cover of the same series returns the full 100000. -/
theorem claim_C4_witness :
    (intradayLongSig (6/5) (iCFrameAt shortEndRows 19) = false ∧
      intradayShortSig (6/5) (iCFrameAt shortEndRows 19) = true ∧
      0 < ⌊(100000 : ℚ) / (iCFrameAt shortEndRows 19).row.close⌋ ∧
      intradayShortExit (iCFrameAt shortLossRows 11) = true ∧
      20 ≤ shortEndRows.length ∧
      (intradayLoop (6/5) (intradayDropna shortEndRows) 100000).pos = -1 ∧
      (intradayTrade (6/5) ⟨0, 100000, 0, 0, [], []⟩ (iCFrameAt shortEndRows 18)
        (iCFrameAt shortEndRows 19)).pos = -1) ∧
    ((intradayStep (6/5) ⟨0, 100000, 0, 0, [], []⟩
        (iCFrameAt shortEndRows 18, iCFrameAt shortEndRows 19)).capital = 10 ∧
      (intradayStep (6/5) ⟨-1, 10, 1010, 99, [], []⟩
        (iCFrameAt shortLossRows 10, iCFrameAt shortLossRows 11)).capital = -52510 ∧
      (intradayStep (6/5) ⟨0, 100000, 0, 0, [], []⟩
        (iCFrameAt shortEndRows 18, iCFrameAt shortEndRows 19)).pvs =
        [] ++ [⟨19, 10 + (1010 : ℚ) * 99 + (1010 : ℚ) * (99 - 99), 99⟩] ∧
      (intraday_strategy_backtest shortEndRows 100000 (6/5)).map
        (fun r => r.finalCapital) = some 100000) :=
  ⟨⟨by decide, by decide, by decide, by decide, by decide, by decide, by decide⟩,
    ((claim_C4.1 (6/5) ⟨0, 100000, 0, 0, [], []⟩ (iCFrameAt shortEndRows 18)
        (iCFrameAt shortEndRows 19) rfl (by decide) (by decide) (by decide)).2.2.2.1).trans
      (by decide),
    ((claim_C4.2.1 (6/5) ⟨-1, 10, 1010, 99, [], []⟩ (iCFrameAt shortLossRows 10)
        (iCFrameAt shortLossRows 11) rfl (by decide)).2.1).trans (by decide),
    ((claim_C4.2.2.1 (6/5) ⟨0, 100000, 0, 0, [], []⟩
        (iCFrameAt shortEndRows 18, iCFrameAt shortEndRows 19) (by decide)).trans (by decide)),
    ((claim_C4.2.2.2 shortEndRows 100000 (6/5) (by decide) (by decide)).trans (by decide))⟩

/-- C6: Forced liquidation: if a position (LONG or SHORT) is still open
after the loop has processed the final bar, the result's trade list is
the loop's ledger with one extra forced-close event — dated at the
series' last date and priced at the last bar's close — appended at the
end, and the resulting ledger is fully closed (as many close events as
open events, the ledger-level statement of a FLAT terminal state); if no
position is open, no such event is appended.  Stated for the Bollinger
and Intraday backtests, the two cited by the claim. -/
theorem claim_C6 (rows1 rows2 : List Row) (cap0 vt : ℚ)
    (hl1 : 50 ≤ rows1.length) (hl2 : 20 ≤ rows2.length)
    (L1 : BState) (hL1 : L1 = bollLoop (bollDropna rows1) cap0)
    (L2 : TState) (hL2 : L2 = intradayLoop vt (intradayDropna rows2) cap0)
    (t1 t2 t3 : Trade)
    (ht1 : t1 = ⟨(rows1.getLastD default).date, .sellFinal,
      (rows1.getLastD default).close, L1.shares,
      L1.capital + (L1.shares : ℚ) * (rows1.getLastD default).close⟩)
    (ht2 : t2 = ⟨(rows2.getLastD default).date, .sellFinal,
      (rows2.getLastD default).close, L2.shares,
      L2.capital + (L2.shares : ℚ) * (rows2.getLastD default).close⟩)
    (ht3 : t3 = ⟨(rows2.getLastD default).date, .coverFinal,
      (rows2.getLastD default).close, L2.shares,
      L2.capital + (L2.shares : ℚ) * L2.entry +
        (L2.shares : ℚ) * (L2.entry - (rows2.getLastD default).close)⟩) :
    ((L1.pos ≠ 0 →
        (bollinger_strategy_backtest rows1 cap0).map (fun r => r.trades) =
          some (L1.trades ++ [t1]) ∧
        openCount (L1.trades ++ [t1]) = closeCount (L1.trades ++ [t1])) ∧
      (L1.pos = 0 →
        (bollinger_strategy_backtest rows1 cap0).map (fun r => r.trades) =
          some L1.trades)) ∧
    ((L2.pos = 1 →
        (intraday_strategy_backtest rows2 cap0 vt).map (fun r => r.trades) =
          some (L2.trades ++ [t2]) ∧
        openCount (L2.trades ++ [t2]) = closeCount (L2.trades ++ [t2])) ∧
      (L2.pos = -1 →
        (intraday_strategy_backtest rows2 cap0 vt).map (fun r => r.trades) =
          some (L2.trades ++ [t3]) ∧
        openCount (L2.trades ++ [t3]) = closeCount (L2.trades ++ [t3])) ∧
      (L2.pos = 0 →
        (intraday_strategy_backtest rows2 cap0 vt).map (fun r => r.trades) =
          some L2.trades)) := by
  subst hL1 hL2 ht1 ht2 ht3
  constructor
  · have hlast : ((bollDropna rows1).getLastD default).row = rows1.getLastD default := by
      rw [bollDropna_getLast rows1 (by omega), getLastD_eq_getD]
      rfl
    obtain ⟨hp, h0, h1⟩ := bollLoop_inv (bollDropna rows1) cap0
    unfold bollinger_strategy_backtest
    rw [if_neg (by omega)]
    dsimp only
    have hdlen := bollDropna_length rows1
    rw [if_neg (by omega)]
    rcases hp with hp | hp
    · rw [if_neg (by rw [beq_iff_eq, hp]; decide)]
      exact ⟨fun hc => absurd hp hc, fun _ => rfl⟩
    · rw [if_pos (beq_iff_eq.mpr hp)]
      obtain ⟨hsh, hcap, hcnt⟩ := h1 hp
      refine ⟨fun _ => ⟨by rw [Option.map_some', hlast], ?_⟩,
        fun h0' => by rw [hp] at h0'; exact absurd h0' (by decide)⟩
      rw [openCount_append_one, closeCount_append_one]
      simp [Action.isOpen, Action.isClose]
      omega
  · have hlast : ((intradayDropna rows2).getLastD default).row = rows2.getLastD default := by
      rw [intradayDropna_getLast rows2 (by omega), getLastD_eq_getD]
      rfl
    obtain ⟨hp, h0, h1⟩ := intradayLoop_inv vt (intradayDropna rows2) cap0
    unfold intraday_strategy_backtest
    rw [if_neg (by omega)]
    dsimp only
    have hdlen := intradayDropna_length rows2
    rw [if_neg (by omega)]
    rcases hp with hp | hp | hp
    · rw [if_neg (by rw [beq_iff_eq, hp]; decide),
        if_neg (by rw [beq_iff_eq, hp]; decide)]
      exact ⟨fun hc => by rw [hp] at hc; exact absurd hc (by decide),
        fun hc => by rw [hp] at hc; exact absurd hc (by decide), fun _ => rfl⟩
    · rw [if_pos (beq_iff_eq.mpr hp)]
      obtain ⟨hsh, hent, hcap, hcnt⟩ := h1 (by rw [hp]; decide)
      refine ⟨fun _ => ⟨by rw [Option.map_some', hlast], ?_⟩,
        fun hc => by rw [hp] at hc; exact absurd hc (by decide),
        fun hc => by rw [hp] at hc; exact absurd hc (by decide)⟩
      rw [openCount_append_one, closeCount_append_one]
      simp [Action.isOpen, Action.isClose]
      omega
    · rw [if_neg (by rw [beq_iff_eq, hp]; decide), if_pos (beq_iff_eq.mpr hp)]
      obtain ⟨hsh, hent, hcap, hcnt⟩ := h1 (by rw [hp]; decide)
      refine ⟨fun hc => by rw [hp] at hc; exact absurd hc (by decide),
        fun _ => ⟨by rw [Option.map_some', hlast], ?_⟩, fun hc => ?_⟩
      · rw [openCount_append_one, closeCount_append_one]
        simp [Action.isOpen, Action.isClose]
        omega
      · rw [hp] at hc
        exact absurd hc (by decide)

/-- C6 (witness): on `longEndRows` the Bollinger loop ends LONG
(1162 shares bought at 86 on the final bar) and the result appends one
final forced sale at date 49 / price 86; on `shortEndRows` the intraday
loop ends SHORT and the result appends one final forced cover at
date 19 / price 99. -/
theorem claim_C6_witness :
    (50 ≤ longEndRows.length ∧ 20 ≤ shortEndRows.length ∧
      (bollLoop (bollDropna longEndRows) 100000).pos ≠ 0 ∧
      (intradayLoop (6/5) (intradayDropna shortEndRows) 100000).pos = -1) ∧
    ((bollinger_strategy_backtest longEndRows 100000).map (fun r => r.trades) =
        some [⟨49, .buy, 86, 1162, 68⟩, ⟨49, .sellFinal, 86, 1162, 100000⟩] ∧
      (intraday_strategy_backtest shortEndRows 100000 (6/5)).map (fun r => r.trades) =
        some [⟨19, .sellShort, 99, 1010, 10⟩, ⟨19, .coverFinal, 99, 1010, 100000⟩]) :=
  ⟨⟨by decide, by decide, by decide, by decide⟩,
    (((claim_C6 longEndRows shortEndRows 100000 (6/5) (by decide) (by decide)
        _ rfl _ rfl _ _ _ rfl rfl rfl).1.1 (by decide)).1).trans (by decide),
    (((claim_C6 longEndRows shortEndRows 100000 (6/5) (by decide) (by decide)
        _ rfl _ rfl _ _ _ rfl rfl rfl).2.2.1 (by decide)).1).trans (by decide)⟩

/-- The trade ledger of an optional backtest result (empty when `None`). -/
def tradesOf (o : Option BResult) : List Trade := (o.map (fun r => r.trades)).getD []

/-- C8 (counterexample): cash is *not* nonnegative after every trade
event in every run with positive initial capital: on `shortLossRows`
with capital 100000 the intraday strategy shorts 1010 shares at 99
(cash 10) and covers at 250, leaving cash `-52510 < 0`. -/
theorem claim_C8_counterexample :
    ((0 : ℚ) < 100000) ∧ (∀ r ∈ shortLossRows, 0 < r.close) ∧
    (intraday_strategy_backtest shortLossRows 100000 (6/5)).map
        (fun r => r.trades.map (fun t => t.capital)) = some [10, -52510] ∧
    ((-52510 : ℚ) < 0) := by
  exact ⟨by decide, by decide, by decide, by decide⟩

/-- C8 (amended): in every run and at every entry signal the opened
quantity is `⌊available_cash / entry_price⌋` — from FLAT, the only event
a loop iteration can append is an open of exactly that many shares, and
only when the floor is positive (a zero floor emits nothing and stays
FLAT) — and cash is ≥ 0 after every trade event in runs of the two
long-only strategies (Bollinger, Breakout) started with positive capital
on positive closes.  (For IntradayPivot, covering a short above twice
its entry price can leave cash negative, as the counterexample shows.) -/
theorem claim_C8 :
    (∀ (s : BState) (pc : BCFrame × BCFrame), s.pos = 0 →
      ((bollStep s pc).pos = 0 ∧ (bollStep s pc).trades = s.trades) ∨
        (0 < ⌊s.capital / pc.2.row.close⌋ ∧
          (bollStep s pc).trades = s.trades ++
            [⟨pc.2.row.date, .buy, pc.2.row.close, ⌊s.capital / pc.2.row.close⌋,
              s.capital - (⌊s.capital / pc.2.row.close⌋ : ℚ) * pc.2.row.close⟩])) ∧
    (∀ (slp tpp : ℚ) (s : TState) (pc : KCFrame × KCFrame), s.pos = 0 →
      ((breakoutStep slp tpp s pc).pos = 0 ∧ (breakoutStep slp tpp s pc).trades = s.trades) ∨
        (0 < ⌊s.capital / pc.2.row.close⌋ ∧
          (breakoutStep slp tpp s pc).trades = s.trades ++
            [⟨pc.2.row.date, .buy, pc.2.row.close, ⌊s.capital / pc.2.row.close⌋,
              s.capital - (⌊s.capital / pc.2.row.close⌋ : ℚ) * pc.2.row.close⟩])) ∧
    (∀ (vt : ℚ) (s : TState) (pc : ICFrame × ICFrame), s.pos = 0 →
      ((intradayStep vt s pc).pos = 0 ∧ (intradayStep vt s pc).trades = s.trades) ∨
        (0 < ⌊s.capital / pc.2.row.close⌋ ∧
          ((intradayStep vt s pc).trades = s.trades ++
              [⟨pc.2.row.date, .buy, pc.2.row.close, ⌊s.capital / pc.2.row.close⌋,
                s.capital - (⌊s.capital / pc.2.row.close⌋ : ℚ) * pc.2.row.close⟩] ∨
            (intradayStep vt s pc).trades = s.trades ++
              [⟨pc.2.row.date, .sellShort, pc.2.row.close, ⌊s.capital / pc.2.row.close⌋,
                s.capital - (⌊s.capital / pc.2.row.close⌋ : ℚ) * pc.2.row.close⟩]))) ∧
    (∀ (rows : List Row) (cap0 slp tpp : ℚ),
      (∀ r ∈ rows, 0 < r.close) → 0 < cap0 →
      (∀ t ∈ tradesOf (bollinger_strategy_backtest rows cap0), 0 ≤ t.capital) ∧
      (∀ t ∈ tradesOf (breakout_strategy_backtest rows cap0 slp tpp), 0 ≤ t.capital)) := by
  refine ⟨?_, ?_, ?_, ?_⟩
  · intro s pc hflat
    unfold bollStep bollTrade
    dsimp only
    split
    · split
      · next hq => exact Or.inr ⟨hq, rfl⟩
      · exact Or.inl ⟨hflat, rfl⟩
    · split
      · next hsig =>
        rw [Bool.and_eq_true, beq_iff_eq] at hsig
        rw [hflat] at hsig
        exact absurd hsig.1 (by decide)
      · exact Or.inl ⟨hflat, rfl⟩
  · intro slp tpp s pc hflat
    unfold breakoutStep breakoutTrade
    dsimp only
    split
    · split
      · next hq => exact Or.inr ⟨hq, rfl⟩
      · exact Or.inl ⟨hflat, rfl⟩
    · split
      · next hsig =>
        rw [Bool.and_eq_true, beq_iff_eq] at hsig
        rw [hflat] at hsig
        exact absurd hsig.1 (by decide)
      · exact Or.inl ⟨hflat, rfl⟩
  · intro vt s pc hflat
    unfold intradayStep intradayTrade
    dsimp only
    rw [if_pos (beq_iff_eq.mpr hflat)]
    split
    · split
      · next hq => exact Or.inr ⟨hq, Or.inl rfl⟩
      · exact Or.inl ⟨hflat, rfl⟩
    · split
      · split
        · next hq => exact Or.inr ⟨hq, Or.inr rfl⟩
        · exact Or.inl ⟨hflat, rfl⟩
      · exact Or.inl ⟨hflat, rfl⟩
  · intro rows cap0 slp tpp hpos hc
    constructor
    · intro t ht
      cases h : bollinger_strategy_backtest rows cap0 with
      | none =>
        rw [tradesOf, h] at ht
        cases ht
      | some r =>
        rw [tradesOf, h] at ht
        exact boll_trades_nonneg rows cap0 hpos (le_of_lt hc) r h t ht
    · intro t ht
      cases h : breakout_strategy_backtest rows cap0 slp tpp with
      | none =>
        rw [tradesOf, h] at ht
        cases ht
      | some r =>
        rw [tradesOf, h] at ht
        exact breakout_trades_nonneg rows cap0 slp tpp hpos (le_of_lt hc) r h t ht

/-- C8 (witness): a flat state with cash ½ and price 100 floors to zero
shares and emits nothing; a Bollinger run on `longEndRows` with capital
100000 leaves nonnegative cash after both of its events (the BUY leaves
68, the forced sale 100000). -/
theorem claim_C8_witness :
    ((⟨0, 1/2, 0, [], []⟩ : BState).pos = 0 ∧ (∀ r ∈ longEndRows, 0 < r.close) ∧
      ((0 : ℚ) < 100000) ∧
      ⟨49, .buy, 86, 1162, 68⟩ ∈ tradesOf (bollinger_strategy_backtest longEndRows 100000) ∧
      ¬ (0 < ⌊(1 : ℚ)/2 / (mkConstRow 1 100).close⌋)) ∧
    ((bollStep ⟨0, 1/2, 0, [], []⟩ (⟨mkConstRow 0 100, 100, 0⟩, ⟨mkConstRow 1 100, 100, 0⟩)).pos = 0 ∧
      (bollStep ⟨0, 1/2, 0, [], []⟩
        (⟨mkConstRow 0 100, 100, 0⟩, ⟨mkConstRow 1 100, 100, 0⟩)).trades = [] ∧
      (0 : ℚ) ≤ (Trade.capital ⟨49, .buy, 86, 1162, 68⟩)) :=
  ⟨⟨rfl, by decide, by decide, by decide, by decide⟩,
    ⟨((claim_C8.1 ⟨0, 1/2, 0, [], []⟩
        (⟨mkConstRow 0 100, 100, 0⟩, ⟨mkConstRow 1 100, 100, 0⟩) rfl).resolve_right
        (fun hc => absurd hc.1 (by decide))).1,
      ((claim_C8.1 ⟨0, 1/2, 0, [], []⟩
        (⟨mkConstRow 0 100, 100, 0⟩, ⟨mkConstRow 1 100, 100, 0⟩) rfl).resolve_right
        (fun hc => absurd hc.1 (by decide))).2,
      (claim_C8.2.2.2 longEndRows 100000 6 15 (by decide) (by decide)).1
        ⟨49, .buy, 86, 1162, 68⟩ (by decide)⟩⟩

/-- C10 (amended): the Breakout and Intraday backtests copy before adding
indicator columns and leave the caller's dataframe unchanged; the
Bollinger backtest leaves the caller's frame untouched when it bails out
below its 50-row guard (returning `None` before
`calculate_bollinger_bands` is called), and otherwise appends the four
band columns to the caller's own object, leaving the base OHLCV rows
unchanged. -/
theorem claim_C10 (df : DataFrame) :
    breakoutCallerFrameAfter df = df ∧
    intradayCallerFrameAfter df = df ∧
    (df.rows.length < 50 → bollingerCallerFrameAfter df = df) ∧
    (50 ≤ df.rows.length →
      (bollingerCallerFrameAfter df).rows = df.rows ∧
      (bollingerCallerFrameAfter df).extraCols =
        df.extraCols ++ ["MA", "STD", "Upper_Band", "Lower_Band"]) := by
  refine ⟨rfl, rfl, fun h => ?_, fun h => ?_⟩
  · unfold bollingerCallerFrameAfter
    rw [if_pos h]
  · unfold bollingerCallerFrameAfter calcBollingerCols
    rw [if_neg (by omega), if_neg (by omega)]
    exact ⟨rfl, rfl⟩

/-- C10 (witness): a 30-row frame is below the Bollinger backtest's
50-row guard and comes back untouched; a 50-row frame comes back with
the same rows and the four band columns appended. -/
theorem claim_C10_witness :
    (((⟨constRows 30, []⟩ : DataFrame).rows.length < 50) ∧
      (50 ≤ (⟨constRows 50, []⟩ : DataFrame).rows.length)) ∧
    (bollingerCallerFrameAfter ⟨constRows 30, []⟩ = (⟨constRows 30, []⟩ : DataFrame) ∧
      (bollingerCallerFrameAfter ⟨constRows 50, []⟩).rows = constRows 50 ∧
      (bollingerCallerFrameAfter ⟨constRows 50, []⟩).extraCols =
        [] ++ ["MA", "STD", "Upper_Band", "Lower_Band"]) :=
  ⟨⟨by decide, by decide⟩,
    (claim_C10 ⟨constRows 30, []⟩).2.2.1 (by decide),
    ((claim_C10 ⟨constRows 50, []⟩).2.2.2 (by decide)).1,
    ((claim_C10 ⟨constRows 50, []⟩).2.2.2 (by decide)).2⟩

end Stock
